import Mathlib

/-!
Verification development for the easyocr.js core pipeline.

Shallow embedding conventions:
* JavaScript `number` arithmetic is modelled over `ℚ` where the source only
  performs field operations and comparisons (so that predicates stay
  decidable), and over `ℝ` where the source uses `Math.exp`, `Math.log`,
  `Math.sqrt`, `Math.hypot`, `Math.atan`, `Math.atan2`, `Math.cos`, `Math.sin`.
* `Math.trunc` is rounding toward zero (`floor` for nonnegative arguments,
  `ceil` otherwise).
* Typed arrays are modelled as lists; out-of-range reads use the default `0`
  (call sites stay in range).
* JavaScript `Array.prototype.sort` with a consistent numeric comparator is
  modelled as the stable `List.insertionSort` with the corresponding `≤`
  relation.
-/

namespace EasyOCR

/-! ### CTC greedy decoder

From `packages/core/src/recognizer.ts`, `ctcGreedyDecode` (the variant with
ignore-set renormalization and the custom-mean confidence).
-/

/-- `logits[t * classes + c]` (Float32Array read). -/
def logitAt (logits : List ℚ) (classes t c : ℕ) : ℚ :=
  logits.getD (t * classes + c) 0

/-- The inner argmax loop of `ctcGreedyDecode`: running `(bestIndex, maxLogit)`
with `maxLogit = none` standing for the initial `-Infinity`, skipping ignored
classes, updating on strictly larger scores. -/
def bestScan (logits : List ℚ) (classes : ℕ) (ignore : List ℕ) (t : ℕ) : ℕ × Option ℚ :=
  (List.range classes).foldl
    (fun acc c =>
      if c ∈ ignore then acc
      else
        match acc.2 with
        | none => (c, some (logitAt logits classes t c))
        | some m =>
            if m < logitAt logits classes t c then (c, some (logitAt logits classes t c))
            else acc)
    (0, none)

/-- `bestIndex` chosen at step `t`. -/
def bestIndexAt (logits : List ℚ) (classes : ℕ) (ignore : List ℕ) (t : ℕ) : ℕ :=
  (bestScan logits classes ignore t).1

/-- The per-step softmax denominator: `sum += Math.exp(logits[t*classes+c] - maxLogit)`
over the non-ignored classes. -/
noncomputable def stepSum (logits : List ℚ) (classes : ℕ) (ignore : List ℕ) (t : ℕ) : ℝ :=
  (List.range classes).foldl
    (fun s c =>
      if c ∈ ignore then s
      else
        s + Real.exp ((logitAt logits classes t c : ℝ) -
          (((bestScan logits classes ignore t).2).getD 0 : ℚ)))
    0

/-- `prob = 1 / sum`, the renormalized probability of the best class. -/
noncomputable def stepProb (logits : List ℚ) (classes : ℕ) (ignore : List ℕ) (t : ℕ) : ℝ :=
  1 / stepSum logits classes ignore t

/-- `indexToChar` of `ctcGreedyDecode`: blank maps to the empty string, other
indices map through the blank-offset convention; an out-of-range charset read
(`?? ''`) yields the empty string. -/
def indexToChar (charset : List Char) (blankIndex idx : ℕ) : String :=
  if idx = blankIndex then ""
  else if blankIndex = 0 then
    match charset.get? (idx - 1) with
    | some ch => String.mk [ch]
    | none => ""
  else
    match charset.get? (if blankIndex < idx then idx - 1 else idx) with
    | some ch => String.mk [ch]
    | none => ""

/-- Loop state of `ctcGreedyDecode`: accumulated text, kept probabilities, and
`prevIndex` (`none` standing for the initial `-1`, which no class index equals). -/
structure CtcState where
  text : String
  maxProbs : List ℝ
  prevIndex : Option ℕ

/-- One iteration of the time-step loop of `ctcGreedyDecode`. -/
noncomputable def ctcStep (logits : List ℚ) (classes : ℕ) (charset : List Char)
    (blankIndex : ℕ) (ignore : List ℕ) (s : CtcState) (t : ℕ) : CtcState :=
  let best := bestIndexAt logits classes ignore t
  let prob := stepProb logits classes ignore t
  let probs := if best ≠ blankIndex ∧ best ∉ ignore then s.maxProbs ++ [prob] else s.maxProbs
  let text :=
    if best ≠ blankIndex ∧ some best ≠ s.prevIndex ∧ best ∉ ignore then
      s.text ++ indexToChar charset blankIndex best
    else s.text
  ⟨text, probs, some best⟩

/-- The `logProd` loop: `none` stands for the `-Infinity` short-circuit taken
as soon as some probability is `≤ 0`. -/
noncomputable def logProdScan : List ℝ → Option ℝ
  | [] => some 0
  | p :: rest => if p ≤ 0 then none else (logProdScan rest).map (fun s => Real.log p + s)

/-- The confidence computation at the end of `ctcGreedyDecode`:
`confidence = 0` when no probabilities were kept or some kept probability is
`≤ 0`, else `exp(logProd * (2 / sqrt n))`. -/
noncomputable def ctcConfidence (probs : List ℝ) : ℝ :=
  if probs.isEmpty then 0
  else
    match logProdScan probs with
    | none => 0
    | some l => Real.exp (l * (2 / Real.sqrt probs.length))

structure DecodeResult where
  text : String
  confidence : ℝ

/-- `ctcGreedyDecode(logits, steps, classes, charset, blankIndex, ignoreIndices)`. -/
noncomputable def ctcGreedyDecode (logits : List ℚ) (steps classes : ℕ) (charset : List Char)
    (blankIndex : ℕ) (ignore : List ℕ) : DecodeResult :=
  let final :=
    (List.range steps).foldl (ctcStep logits classes charset blankIndex ignore) ⟨"", [], none⟩
  ⟨final.text, ctcConfidence final.maxProbs⟩

/-- Specification-side view of the kept probabilities: the per-step
probabilities of the steps whose argmax is neither the blank nor ignored. -/
noncomputable def keptProbs (logits : List ℚ) (steps classes blankIndex : ℕ)
    (ignore : List ℕ) : List ℝ :=
  (List.range steps).filterMap fun t =>
    if bestIndexAt logits classes ignore t ≠ blankIndex ∧
        bestIndexAt logits classes ignore t ∉ ignore then
      some (stepProb logits classes ignore t)
    else none

/-- Generic form of the argmax loop, used to reason about `bestScan` by
induction on the number of classes. -/
def argmaxFold (f : ℕ → ℚ) (ignore : List ℕ) (n : ℕ) : ℕ × Option ℚ :=
  (List.range n).foldl
    (fun acc c =>
      if c ∈ ignore then acc
      else
        match acc.2 with
        | none => (c, some (f c))
        | some m => if m < f c then (c, some (f c)) else acc)
    (0, none)

lemma bestScan_eq_argmaxFold (logits : List ℚ) (classes : ℕ) (ignore : List ℕ) (t : ℕ) :
    bestScan logits classes ignore t = argmaxFold (logitAt logits classes t) ignore classes := rfl

lemma argmaxFold_succ (f : ℕ → ℚ) (ignore : List ℕ) (n : ℕ) :
    argmaxFold f ignore (n + 1) =
      (if n ∈ ignore then argmaxFold f ignore n
       else
         match (argmaxFold f ignore n).2 with
         | none => (n, some (f n))
         | some m => if m < f n then (n, some (f n)) else argmaxFold f ignore n) := by
  unfold argmaxFold
  rw [List.range_succ, List.foldl_append, List.foldl_cons, List.foldl_nil]

lemma argmaxFold_all_ignored (f : ℕ → ℚ) (ignore : List ℕ) :
    ∀ n, (∀ c, c < n → c ∈ ignore) → argmaxFold f ignore n = (0, none) := by
  intro n
  induction n with
  | zero => intro _; rfl
  | succ m ih =>
      intro h
      rw [argmaxFold_succ, ih (fun c hc => h c (Nat.lt_succ_of_lt hc))]
      simp [h m (Nat.lt_succ_self m)]

lemma argmaxFold_spec (f : ℕ → ℚ) (ignore : List ℕ) :
    ∀ n, (∃ c, c < n ∧ c ∉ ignore) →
      (argmaxFold f ignore n).1 < n ∧ (argmaxFold f ignore n).1 ∉ ignore ∧
      (argmaxFold f ignore n).2 = some (f (argmaxFold f ignore n).1) ∧
      ∀ c, c < n → c ∉ ignore → f c ≤ f (argmaxFold f ignore n).1 := by
  intro n
  induction n with
  | zero => rintro ⟨c, hc, -⟩; exact absurd hc (Nat.not_lt_zero c)
  | succ m ih =>
      intro hex
      by_cases hm : m ∈ ignore
      · obtain ⟨c, hc, hci⟩ := hex
        have hcm : c < m := by
          rcases Nat.lt_succ_iff_lt_or_eq.mp hc with h | h
          · exact h
          · exact absurd (h ▸ hci) (fun hn => hn hm)
        obtain ⟨h1, h2, h3, h4⟩ := ih ⟨c, hcm, hci⟩
        rw [argmaxFold_succ]
        simp only [hm, if_pos]
        refine ⟨Nat.lt_succ_of_lt h1, h2, h3, ?_⟩
        intro d hd hdi
        rcases Nat.lt_succ_iff_lt_or_eq.mp hd with h | h
        · exact h4 d h hdi
        · exact absurd (h ▸ hdi) (fun hn => hn hm)
      · by_cases hexm : ∃ c, c < m ∧ c ∉ ignore
        · obtain ⟨h1, h2, h3, h4⟩ := ih hexm
          rw [argmaxFold_succ, if_neg hm, h3]
          simp only []
          by_cases hlt : f (argmaxFold f ignore m).1 < f m
          · rw [if_pos hlt]
            refine ⟨Nat.lt_succ_self m, hm, rfl, ?_⟩
            intro d hd hdi
            rcases Nat.lt_succ_iff_lt_or_eq.mp hd with h | h
            · exact le_trans (h4 d h hdi) (le_of_lt hlt)
            · exact h ▸ le_refl _
          · rw [if_neg hlt]
            refine ⟨Nat.lt_succ_of_lt h1, h2, h3, ?_⟩
            intro d hd hdi
            rcases Nat.lt_succ_iff_lt_or_eq.mp hd with h | h
            · exact h4 d h hdi
            · cases h; exact le_of_not_lt hlt
        · have hall : ∀ c, c < m → c ∈ ignore := by
            intro c hc
            by_contra hni
            exact hexm ⟨c, hc, hni⟩
          rw [argmaxFold_succ, argmaxFold_all_ignored f ignore m hall, if_neg hm]
          refine ⟨Nat.lt_succ_self m, hm, rfl, ?_⟩
          intro d hd hdi
          rcases Nat.lt_succ_iff_lt_or_eq.mp hd with h | h
          · exact absurd (hall d h) hdi
          · exact h ▸ le_refl _

lemma bestIndexAt_spec (logits : List ℚ) (classes : ℕ) (ignore : List ℕ) (t : ℕ)
    (h : ∃ c, c < classes ∧ c ∉ ignore) :
    bestIndexAt logits classes ignore t < classes ∧
    bestIndexAt logits classes ignore t ∉ ignore ∧
    (bestScan logits classes ignore t).2 =
      some (logitAt logits classes t (bestIndexAt logits classes ignore t)) ∧
    ∀ c, c < classes → c ∉ ignore →
      logitAt logits classes t c ≤ logitAt logits classes t (bestIndexAt logits classes ignore t) := by
  have := argmaxFold_spec (logitAt logits classes t) ignore classes h
  rw [bestScan_eq_argmaxFold] at *
  exact this

lemma foldl_sum_filter (g : ℕ → ℝ) (ignore : List ℕ) (l : List ℕ) :
    ∀ a : ℝ,
      l.foldl (fun s c => if c ∈ ignore then s else s + g c) a
        = a + ((l.filter (fun c => c ∉ ignore)).map g).sum := by
  induction l with
  | nil => intro a; simp
  | cons x xs ih =>
      intro a
      by_cases hx : x ∈ ignore
      · rw [List.foldl_cons, if_pos hx, ih a, List.filter_cons]
        simp [hx]
      · rw [List.foldl_cons, if_neg hx, ih (a + g x), List.filter_cons]
        simp [hx, add_assoc]

lemma stepSum_eq (logits : List ℚ) (classes : ℕ) (ignore : List ℕ) (t : ℕ)
    (h : ∃ c, c < classes ∧ c ∉ ignore) :
    stepSum logits classes ignore t =
      (((List.range classes).filter (fun c => c ∉ ignore)).map
        (fun c => Real.exp ((logitAt logits classes t c : ℝ) -
          (logitAt logits classes t (bestIndexAt logits classes ignore t) : ℝ)))).sum := by
  obtain ⟨-, -, h3, -⟩ := bestIndexAt_spec logits classes ignore t h
  unfold stepSum
  rw [foldl_sum_filter, h3]
  simp [Option.getD]

lemma stepSum_ge_one (logits : List ℚ) (classes : ℕ) (ignore : List ℕ) (t : ℕ)
    (h : ∃ c, c < classes ∧ c ∉ ignore) :
    1 ≤ stepSum logits classes ignore t := by
  obtain ⟨h1, h2, -, -⟩ := bestIndexAt_spec logits classes ignore t h
  rw [stepSum_eq logits classes ignore t h]
  have hmem : Real.exp ((logitAt logits classes t (bestIndexAt logits classes ignore t) : ℝ) -
      (logitAt logits classes t (bestIndexAt logits classes ignore t) : ℝ)) ∈
      (((List.range classes).filter (fun c => c ∉ ignore)).map
        (fun c => Real.exp ((logitAt logits classes t c : ℝ) -
          (logitAt logits classes t (bestIndexAt logits classes ignore t) : ℝ)))) := by
    refine List.mem_map.mpr ⟨bestIndexAt logits classes ignore t, ?_, rfl⟩
    refine List.mem_filter.mpr ⟨List.mem_range.mpr h1, by simpa using h2⟩
  have hval : Real.exp ((logitAt logits classes t (bestIndexAt logits classes ignore t) : ℝ) -
      (logitAt logits classes t (bestIndexAt logits classes ignore t) : ℝ)) = 1 := by
    simp
  calc (1 : ℝ) = _ := hval.symm
    _ ≤ _ := List.single_le_sum (fun y hy => by
        obtain ⟨c, -, rfl⟩ := List.mem_map.mp hy
        exact le_of_lt (Real.exp_pos _)) _ hmem

lemma stepProb_pos_le_one (logits : List ℚ) (classes : ℕ) (ignore : List ℕ) (t : ℕ)
    (h : ∃ c, c < classes ∧ c ∉ ignore) :
    0 < stepProb logits classes ignore t ∧ stepProb logits classes ignore t ≤ 1 := by
  have h1 := stepSum_ge_one logits classes ignore t h
  have hpos : (0 : ℝ) < stepSum logits classes ignore t := lt_of_lt_of_le one_pos h1
  constructor
  · exact div_pos one_pos hpos
  · rw [stepProb, div_le_one hpos]
    exact h1

lemma ctcFold_maxProbs (logits : List ℚ) (classes : ℕ) (charset : List Char)
    (blankIndex : ℕ) (ignore : List ℕ) (s : CtcState) :
    ∀ n, ((List.range n).foldl (ctcStep logits classes charset blankIndex ignore) s).maxProbs
      = s.maxProbs ++ keptProbs logits n classes blankIndex ignore := by
  intro n
  induction n with
  | zero => simp [keptProbs]
  | succ m ih =>
      rw [List.range_succ, List.foldl_append, List.foldl_cons, List.foldl_nil]
      unfold keptProbs at *
      rw [List.range_succ, List.filterMap_append]
      by_cases hk : bestIndexAt logits classes ignore m ≠ blankIndex ∧
          bestIndexAt logits classes ignore m ∉ ignore
      · simp only [ctcStep, hk, if_pos, ih]
        simp [hk, List.append_assoc]
      · simp only [ctcStep, hk, if_neg, not_false_iff, ih]
        simp [hk]

lemma logProdScan_eq_none_iff (ps : List ℝ) :
    logProdScan ps = none ↔ ∃ p ∈ ps, p ≤ 0 := by
  induction ps with
  | nil => simp [logProdScan]
  | cons p rest ih =>
      by_cases hp : p ≤ 0
      · simp [logProdScan, hp]
      · simp [logProdScan, hp, ih, Option.map_eq_none]

lemma logProdScan_eq_some (ps : List ℝ) (h : ∀ p ∈ ps, 0 < p) :
    logProdScan ps = some ((ps.map Real.log).sum) := by
  induction ps with
  | nil => simp [logProdScan]
  | cons p rest ih =>
      have hp : ¬ p ≤ 0 := not_le.mpr (h p (List.mem_cons_self p rest))
      rw [logProdScan, if_neg hp, ih (fun q hq => h q (List.mem_cons_of_mem p hq))]
      simp

lemma ctcConfidence_eq (ps : List ℝ) :
    ctcConfidence ps =
      if ps = [] then 0
      else if ∃ p ∈ ps, p ≤ 0 then 0
      else Real.exp ((ps.map Real.log).sum * (2 / Real.sqrt ps.length)) := by
  by_cases hnil : ps = []
  · simp [ctcConfidence, hnil]
  · rw [if_neg hnil]
    by_cases hex : ∃ p ∈ ps, p ≤ 0
    · rw [if_pos hex, ctcConfidence, if_neg (by simpa [List.isEmpty_iff] using hnil),
        (logProdScan_eq_none_iff ps).mpr hex]
    · have hpos : ∀ p ∈ ps, 0 < p := by
        intro p hp
        by_contra hnp
        exact hex ⟨p, hp, le_of_not_lt hnp⟩
      rw [if_neg hex, ctcConfidence, if_neg (by simpa [List.isEmpty_iff] using hnil),
        logProdScan_eq_some ps hpos]

lemma keptProbs_mem (logits : List ℚ) (steps classes blankIndex : ℕ) (ignore : List ℕ)
    {p : ℝ} (hp : p ∈ keptProbs logits steps classes blankIndex ignore) :
    p = 0 ∨ (0 < p ∧ p ≤ 1) := by
  unfold keptProbs at hp
  obtain ⟨t, -, ht⟩ := List.mem_filterMap.mp hp
  by_cases hcond : bestIndexAt logits classes ignore t ≠ blankIndex ∧
      bestIndexAt logits classes ignore t ∉ ignore
  · rw [if_pos hcond, Option.some_inj] at ht
    subst ht
    rcases Nat.eq_zero_or_pos classes with hc | hc
    · left
      subst hc
      simp [stepProb, stepSum, List.range_zero]
    · right
      refine stepProb_pos_le_one logits classes ignore t ?_
      by_contra hno
      push_neg at hno
      have hall : ∀ c, c < classes → c ∈ ignore := fun c hcl => by
        by_contra hni
        exact hni (by simpa using hno c hcl)
      have h0 : bestIndexAt logits classes ignore t = 0 := by
        unfold bestIndexAt
        rw [bestScan_eq_argmaxFold, argmaxFold_all_ignored _ _ _ hall]
      exact hcond.2 (h0 ▸ hall 0 hc)
  · rw [if_neg hcond] at ht
    exact absurd ht (Option.noConfusion)

lemma list_sum_nonpos : ∀ l : List ℝ, (∀ x ∈ l, x ≤ 0) → l.sum ≤ 0 := by
  intro l
  induction l with
  | nil => intro _; simp
  | cons x xs ih =>
      intro h
      rw [List.sum_cons]
      have h1 := h x (List.mem_cons_self x xs)
      have h2 := ih (fun y hy => h y (List.mem_cons_of_mem x hy))
      linarith

lemma ctcConfidence_mem_Icc (ps : List ℝ) (h : ∀ p ∈ ps, p = 0 ∨ (0 < p ∧ p ≤ 1)) :
    0 ≤ ctcConfidence ps ∧ ctcConfidence ps ≤ 1 := by
  rw [ctcConfidence_eq]
  by_cases h1 : ps = []
  · simp [h1]
  · rw [if_neg h1]
    by_cases h2 : ∃ p ∈ ps, p ≤ 0
    · simp [h2]
    · rw [if_neg h2]
      push_neg at h2
      have hle : ∀ p ∈ ps, 0 < p ∧ p ≤ 1 := by
        intro p hp
        rcases h p hp with h0 | hgood
        · subst h0
          exact absurd (h2 0 hp) (lt_irrefl 0)
        · exact hgood
      have hsum : ((ps.map Real.log).sum) ≤ 0 := by
        refine list_sum_nonpos _ ?_
        intro x hx
        obtain ⟨p, hp, rfl⟩ := List.mem_map.mp hx
        exact Real.log_nonpos (le_of_lt (hle p hp).1) (hle p hp).2
      have hcoef : (0 : ℝ) ≤ 2 / Real.sqrt ps.length := by positivity
      have hprod : (ps.map Real.log).sum * (2 / Real.sqrt ps.length) ≤ 0 :=
        mul_nonpos_iff.mpr (Or.inr ⟨hsum, hcoef⟩)
      exact ⟨le_of_lt (Real.exp_pos _), Real.exp_le_one_iff.mpr hprod⟩

lemma string_mk_cons_ne_empty (c : Char) (l : List Char) : String.mk (c :: l) ≠ "" := by
  intro h
  have := congrArg String.data h
  simp at this

lemma string_append_ne_empty_of_right (s t : String) (h : t ≠ "") : s ++ t ≠ "" := by
  intro hst
  apply h
  have hdata := congrArg String.data hst
  rw [String.data_append] at hdata
  have := List.append_eq_nil.mp hdata
  cases t
  simpa [String.ext_iff] using this.2

lemma indexToChar_ne_empty (charset : List Char) (classes blankIndex idx : ℕ)
    (hcs : charset.length + 1 = classes) (hbl : blankIndex < classes)
    (hidx : idx < classes) (hne : idx ≠ blankIndex) :
    indexToChar charset blankIndex idx ≠ "" := by
  unfold indexToChar
  rw [if_neg hne]
  by_cases hb0 : blankIndex = 0
  · rw [if_pos hb0]
    have hlt : idx - 1 < charset.length := by omega
    rw [List.get?_eq_get hlt]
    exact string_mk_cons_ne_empty _ _
  · rw [if_neg hb0]
    have hlt : (if blankIndex < idx then idx - 1 else idx) < charset.length := by
      by_cases hcase : blankIndex < idx
      · simp only [hcase, if_pos]
        omega
      · simp only [hcase, if_neg, not_false_iff]
        omega
    rw [List.get?_eq_get hlt]
    exact string_mk_cons_ne_empty _ _

/-- Invariant of the decode loop: while no probability has been kept the text
is empty and `prevIndex` is blank or ignored; once a probability has been kept
the text is nonempty (under the charset-covering convention). -/
lemma ctcFold_text_inv (logits : List ℚ) (classes : ℕ) (charset : List Char)
    (blankIndex : ℕ) (ignore : List ℕ)
    (hcs : charset.length + 1 = classes) (hbl : blankIndex < classes) :
    ∀ n,
      (((List.range n).foldl (ctcStep logits classes charset blankIndex ignore)
          ⟨"", [], none⟩).maxProbs = [] →
        ((List.range n).foldl (ctcStep logits classes charset blankIndex ignore)
          ⟨"", [], none⟩).text = "" ∧
        ∀ b, ((List.range n).foldl (ctcStep logits classes charset blankIndex ignore)
          ⟨"", [], none⟩).prevIndex = some b → (b = blankIndex ∨ b ∈ ignore)) ∧
      (((List.range n).foldl (ctcStep logits classes charset blankIndex ignore)
          ⟨"", [], none⟩).maxProbs ≠ [] →
        ((List.range n).foldl (ctcStep logits classes charset blankIndex ignore)
          ⟨"", [], none⟩).text ≠ "") := by
  intro n
  induction n with
  | zero =>
      constructor
      · intro _; exact ⟨rfl, fun b hb => Option.noConfusion hb⟩
      · intro h; exact absurd rfl h
  | succ m ih =>
      rw [List.range_succ, List.foldl_append, List.foldl_cons, List.foldl_nil]
      set s := (List.range m).foldl (ctcStep logits classes charset blankIndex ignore)
        ⟨"", [], none⟩ with hs
      have hprev2 : (ctcStep logits classes charset blankIndex ignore s m).prevIndex =
          some (bestIndexAt logits classes ignore m) := rfl
      by_cases hk : bestIndexAt logits classes ignore m ≠ blankIndex ∧
          bestIndexAt logits classes ignore m ∉ ignore
      · have hbest : bestIndexAt logits classes ignore m < classes := by
          rcases Nat.eq_zero_or_pos classes with hc | hc
          · omega
          · by_cases hex : ∃ c, c < classes ∧ c ∉ ignore
            · exact (bestIndexAt_spec logits classes ignore m hex).1
            · push_neg at hex
              have hall : ∀ c, c < classes → c ∈ ignore := fun c hcl => by
                by_contra hni
                exact hni (by simpa using hex c hcl)
              have h0 : bestIndexAt logits classes ignore m = 0 := by
                unfold bestIndexAt
                rw [bestScan_eq_argmaxFold, argmaxFold_all_ignored _ _ _ hall]
              exact absurd (h0 ▸ hall 0 hc) hk.2
        have hch : indexToChar charset blankIndex (bestIndexAt logits classes ignore m) ≠ "" :=
          indexToChar_ne_empty charset classes blankIndex _ hcs hbl hbest hk.1
        have hpr : (ctcStep logits classes charset blankIndex ignore s m).maxProbs =
            s.maxProbs ++ [stepProb logits classes ignore m] := by
          simp only [ctcStep]
          rw [if_pos hk]
        constructor
        · intro hprobs
          rw [hpr] at hprobs
          exact absurd hprobs (by simp)
        · intro _
          by_cases hprevc : some (bestIndexAt logits classes ignore m) ≠ s.prevIndex
          · have htxt : (ctcStep logits classes charset blankIndex ignore s m).text =
                s.text ++ indexToChar charset blankIndex (bestIndexAt logits classes ignore m) := by
              simp only [ctcStep]
              rw [if_pos ⟨hk.1, hprevc, hk.2⟩]
            rw [htxt]
            exact string_append_ne_empty_of_right _ _ hch
          · push_neg at hprevc
            have hsprob : s.maxProbs ≠ [] := by
              intro hblank
              rcases (ih.1 hblank).2 (bestIndexAt logits classes ignore m) hprevc.symm with h | h
              · exact hk.1 h
              · exact hk.2 h
            have htxt : (ctcStep logits classes charset blankIndex ignore s m).text = s.text := by
              simp only [ctcStep]
              rw [if_neg (fun hc => hc.2.1 hprevc)]
            rw [htxt]
            exact ih.2 hsprob
      · have hpr : (ctcStep logits classes charset blankIndex ignore s m).maxProbs =
            s.maxProbs := by
          simp only [ctcStep]
          rw [if_neg hk]
        have htxt : (ctcStep logits classes charset blankIndex ignore s m).text = s.text := by
          simp only [ctcStep]
          rw [if_neg (fun hc => hk ⟨hc.1, hc.2.2⟩)]
        constructor
        · intro hprobs
          rw [hpr] at hprobs
          refine ⟨htxt ▸ (ih.1 hprobs).1, ?_⟩
          intro b hb
          rw [hprev2] at hb
          cases Option.some_inj.mp hb
          by_cases hb1 : bestIndexAt logits classes ignore m = blankIndex
          · exact Or.inl hb1
          · right
            by_contra hb2
            exact hk ⟨hb1, hb2⟩
        · intro hprobs
          rw [hpr] at hprobs
          rw [htxt]
          exact ih.2 hprobs

/-- C1: for every logits array, positive step count, class count, charset,
blank index and ignore set, `ctcGreedyDecode` returns confidence
`exp((Σ ln pᵢ) · 2/√n)` where the `pᵢ` are the per-step probabilities kept at
steps whose argmax is neither the blank nor ignored and `n` is their count;
the confidence is `0` when some kept `pᵢ ≤ 0` or when no probability is kept. -/
theorem ctc_confidence_formula (logits : List ℚ) (steps classes : ℕ) (charset : List Char)
    (blankIndex : ℕ) (ignore : List ℕ) (_hsteps : 0 < steps) :
    (ctcGreedyDecode logits steps classes charset blankIndex ignore).confidence =
      if keptProbs logits steps classes blankIndex ignore = [] then 0
      else if ∃ p ∈ keptProbs logits steps classes blankIndex ignore, p ≤ 0 then 0
      else
        Real.exp (((keptProbs logits steps classes blankIndex ignore).map Real.log).sum *
          (2 / Real.sqrt (keptProbs logits steps classes blankIndex ignore).length)) := by
  show ctcConfidence ((List.range steps).foldl
      (ctcStep logits classes charset blankIndex ignore) ⟨"", [], none⟩).maxProbs = _
  rw [ctcFold_maxProbs, List.nil_append, ctcConfidence_eq]

/-- Witness for C1 at a concrete input (`steps = 1 > 0`). -/
theorem ctc_confidence_formula_witness :
    (ctcGreedyDecode [0, 0] 1 2 ['a'] 0 []).confidence =
      if keptProbs [0, 0] 1 2 0 [] = [] then 0
      else if ∃ p ∈ keptProbs [0, 0] 1 2 0 [], p ≤ 0 then 0
      else
        Real.exp (((keptProbs [0, 0] 1 2 0 []).map Real.log).sum *
          (2 / Real.sqrt (keptProbs [0, 0] 1 2 0 []).length)) :=
  ctc_confidence_formula [0, 0] 1 2 ['a'] 0 [] (by norm_num)

/-- C3: at every time step (whenever some class is admissible) the chosen
`bestIndex` is the argmax of the step's logits restricted to non-ignored
classes and the per-step probability is
`1 / Σ_{c ∉ ignore} exp(logits[t,c] − logits[t,bestIndex])`; on the concrete
charset "abc" example (class 1 favored at step 0, class 2 at steps 1 and 2)
decoding with ignore set `{2}` yields the text "a". -/
theorem ctc_argmax_ignore :
    (∀ (logits : List ℚ) (classes : ℕ) (ignore : List ℕ) (t : ℕ),
      (∃ c, c < classes ∧ c ∉ ignore) →
        bestIndexAt logits classes ignore t ∉ ignore ∧
        bestIndexAt logits classes ignore t < classes ∧
        (∀ c, c < classes → c ∉ ignore →
          logitAt logits classes t c ≤
            logitAt logits classes t (bestIndexAt logits classes ignore t)) ∧
        stepProb logits classes ignore t =
          1 / (((List.range classes).filter (fun c => c ∉ ignore)).map
              (fun c => Real.exp ((logitAt logits classes t c : ℝ) -
                (logitAt logits classes t (bestIndexAt logits classes ignore t) : ℝ)))).sum) ∧
    (ctcGreedyDecode [0, 9, 0, 0, 0, 0, 9, 0, 0, 0, 9, 0] 3 4 ['a', 'b', 'c'] 0 [2]).text
      = "a" := by
  constructor
  · intro logits classes ignore t h
    obtain ⟨h1, h2, h3, h4⟩ := bestIndexAt_spec logits classes ignore t h
    refine ⟨h2, h1, h4, ?_⟩
    rw [stepProb, stepSum_eq logits classes ignore t h]
  · rfl

/-- Witness for C3: the argmax statement applied at step 0 of the concrete
example (class 1 is admissible), together with the concrete decode. -/
theorem ctc_argmax_ignore_witness :
    (bestIndexAt [0, 9, 0, 0, 0, 0, 9, 0, 0, 0, 9, 0] 4 [2] 0 ∉ ([2] : List ℕ) ∧
      bestIndexAt [0, 9, 0, 0, 0, 0, 9, 0, 0, 0, 9, 0] 4 [2] 0 < 4 ∧
      (∀ c, c < 4 → c ∉ ([2] : List ℕ) →
        logitAt [0, 9, 0, 0, 0, 0, 9, 0, 0, 0, 9, 0] 4 0 c ≤
          logitAt [0, 9, 0, 0, 0, 0, 9, 0, 0, 0, 9, 0] 4 0
            (bestIndexAt [0, 9, 0, 0, 0, 0, 9, 0, 0, 0, 9, 0] 4 [2] 0)) ∧
      stepProb [0, 9, 0, 0, 0, 0, 9, 0, 0, 0, 9, 0] 4 [2] 0 =
        1 / (((List.range 4).filter (fun c => c ∉ ([2] : List ℕ))).map
            (fun c => Real.exp ((logitAt [0, 9, 0, 0, 0, 0, 9, 0, 0, 0, 9, 0] 4 0 c : ℝ) -
              (logitAt [0, 9, 0, 0, 0, 0, 9, 0, 0, 0, 9, 0] 4 0
                (bestIndexAt [0, 9, 0, 0, 0, 0, 9, 0, 0, 0, 9, 0] 4 [2] 0) : ℝ)))).sum) ∧
    (ctcGreedyDecode [0, 9, 0, 0, 0, 0, 9, 0, 0, 0, 9, 0] 3 4 ['a', 'b', 'c'] 0 [2]).text
      = "a" :=
  ⟨ctc_argmax_ignore.1 [0, 9, 0, 0, 0, 0, 9, 0, 0, 0, 9, 0] 4 [2] 0 ⟨1, by decide⟩,
   ctc_argmax_ignore.2⟩

/-- C8 (amended): the confidence returned by `ctcGreedyDecode` always lies in
`[0, 1]`; under the charset convention (`charset.length + 1 = classes` with
`blankIndex < classes`) an empty decoded text forces confidence `0`.  Without
that convention a too-short charset can yield empty text with positive
confidence (see the counterexample). -/
theorem ctc_confidence_range (logits : List ℚ) (steps classes : ℕ) (charset : List Char)
    (blankIndex : ℕ) (ignore : List ℕ) :
    0 ≤ (ctcGreedyDecode logits steps classes charset blankIndex ignore).confidence ∧
    (ctcGreedyDecode logits steps classes charset blankIndex ignore).confidence ≤ 1 ∧
    (charset.length + 1 = classes → blankIndex < classes →
      (ctcGreedyDecode logits steps classes charset blankIndex ignore).text = "" →
      (ctcGreedyDecode logits steps classes charset blankIndex ignore).confidence = 0) := by
  have hconf : (ctcGreedyDecode logits steps classes charset blankIndex ignore).confidence =
      ctcConfidence (keptProbs logits steps classes blankIndex ignore) := by
    show ctcConfidence ((List.range steps).foldl
        (ctcStep logits classes charset blankIndex ignore) ⟨"", [], none⟩).maxProbs = _
    rw [ctcFold_maxProbs, List.nil_append]
  have hmem : ∀ p ∈ keptProbs logits steps classes blankIndex ignore,
      p = 0 ∨ (0 < p ∧ p ≤ 1) :=
    fun _ hp => keptProbs_mem logits steps classes blankIndex ignore hp
  obtain ⟨hlo, hhi⟩ := ctcConfidence_mem_Icc _ hmem
  refine ⟨hconf ▸ hlo, hconf ▸ hhi, ?_⟩
  intro hcs hbl htext
  have hfold : ((List.range steps).foldl (ctcStep logits classes charset blankIndex ignore)
      ⟨"", [], none⟩).maxProbs = [] := by
    by_contra hne
    exact (ctcFold_text_inv logits classes charset blankIndex ignore hcs hbl steps).2 hne htext
  show ctcConfidence ((List.range steps).foldl
      (ctcStep logits classes charset blankIndex ignore) ⟨"", [], none⟩).maxProbs = 0
  rw [hfold]
  rfl

/-- Witness for C8 at a concrete, convention-satisfying input
(charset of length 1, 2 classes, blank 0). -/
theorem ctc_confidence_range_witness :
    0 ≤ (ctcGreedyDecode [0, 0] 1 2 ['a'] 0 []).confidence ∧
    (ctcGreedyDecode [0, 0] 1 2 ['a'] 0 []).confidence ≤ 1 ∧
    ((['a'] : List Char).length + 1 = 2 → 0 < 2 →
      (ctcGreedyDecode [0, 0] 1 2 ['a'] 0 []).text = "" →
      (ctcGreedyDecode [0, 0] 1 2 ['a'] 0 []).confidence = 0) :=
  ctc_confidence_range [0, 0] 1 2 ['a'] 0 []

/-- C8 counterexample: with a charset shorter than `classes − 1` (here the
empty charset) the decoded text is empty while the confidence is nonzero, so
"text empty implies confidence 0" fails as stated for arbitrary charsets. -/
theorem ctc_empty_text_positive_confidence :
    (ctcGreedyDecode [0, 1] 1 2 [] 0 []).text = "" ∧
    (ctcGreedyDecode [0, 1] 1 2 [] 0 []).confidence ≠ 0 := by
  have hbest : bestIndexAt [0, 1] 2 [] 0 = 1 := rfl
  have hsum : stepSum [0, 1] 2 [] 0 =
      Real.exp ((0 : ℝ) - 1) + Real.exp ((1 : ℝ) - 1) := by
    rw [stepSum_eq [0, 1] 2 [] 0 ⟨0, by decide⟩, hbest]
    have h0 : (logitAt [0, 1] 2 0 0 : ℝ) = 0 := by norm_num [logitAt]
    have h1 : (logitAt [0, 1] 2 0 1 : ℝ) = 1 := by norm_num [logitAt]
    have hfilter : ((List.range 2).filter (fun c => c ∉ ([] : List ℕ))) = [0, 1] := by decide
    rw [hfilter]
    simp [h0, h1]
  have hpos : 0 < stepProb [0, 1] 2 [] 0 := by
    rw [stepProb, hsum]
    positivity
  have hkept : keptProbs [0, 1] 1 2 0 [] = [stepProb [0, 1] 2 [] 0] := by
    unfold keptProbs
    rw [List.range_succ, List.range_zero]
    simp [hbest]
  have hconf : (ctcGreedyDecode [0, 1] 1 2 [] 0 []).confidence =
      ctcConfidence [stepProb [0, 1] 2 [] 0] := by
    show ctcConfidence ((List.range 1).foldl (ctcStep [0, 1] 2 [] 0 []) ⟨"", [], none⟩).maxProbs
      = _
    rw [ctcFold_maxProbs, List.nil_append, hkept]
  refine ⟨rfl, ?_⟩
  rw [hconf, ctcConfidence_eq]
  have hnotex : ¬ ∃ p ∈ [stepProb [0, 1] 2 [] 0], p ≤ 0 := by
    rintro ⟨p, hp, hple⟩
    rw [List.mem_singleton] at hp
    subst hp
    exact absurd hple (not_le.mpr hpos)
  rw [if_neg (by simp), if_neg hnotex]
  exact Real.exp_ne_zero _

/-! ### Replicate padding

From `packages/core/src/index.ts`, `padToWidth` (replicate-last-column
variant, planar channel-height-width layout).
-/

/-- `padToWidth(data, width, height, channels, targetWidth)`: identity when the
buffer is already wide enough, otherwise each row of each channel plane is
copied and the columns `width..targetWidth-1` are filled with the last valid
column value (`?? 0` when the row is empty). -/
def padToWidth (data : List ℝ) (width height channels targetWidth : ℕ) : List ℝ :=
  if targetWidth ≤ width then data
  else
    (List.range channels).flatMap fun c =>
      (List.range height).flatMap fun y =>
        (List.range targetWidth).map fun x =>
          if x < width then data.getD (c * width * height + y * width + x) 0
          else data.getD (c * width * height + y * width + (width - 1)) 0

/-- C9: on a buffer whose width is at least the target width `padToWidth`
returns the input unchanged, and consequently padding is idempotent. -/
theorem padToWidth_identity :
    (∀ (data : List ℝ) (width height channels targetWidth : ℕ),
      targetWidth ≤ width →
      padToWidth data width height channels targetWidth = data) ∧
    (∀ (data : List ℝ) (width height channels targetWidth : ℕ),
      padToWidth (padToWidth data width height channels targetWidth)
          (max width targetWidth) height channels targetWidth =
        padToWidth data width height channels targetWidth) := by
  have hid : ∀ (data : List ℝ) (width height channels targetWidth : ℕ),
      targetWidth ≤ width →
      padToWidth data width height channels targetWidth = data := by
    intro data width height channels targetWidth h
    rw [padToWidth, if_pos h]
  refine ⟨hid, ?_⟩
  intro data width height channels targetWidth
  by_cases h : targetWidth ≤ width
  · rw [Nat.max_eq_left h, hid data width height channels targetWidth h]
    exact hid data width height channels targetWidth h
  · have hlt : width ≤ targetWidth := le_of_not_le h
    rw [Nat.max_eq_right hlt]
    exact hid _ targetWidth height channels targetWidth (le_refl _)

/-- Witness for C9: identity and idempotence at a concrete buffer. -/
theorem padToWidth_identity_witness :
    (2 : ℕ) ≤ 3 ∧ padToWidth [1, 2, 3] 3 1 1 2 = [1, 2, 3] ∧
    padToWidth (padToWidth [5, 7] 2 1 1 4) (max 2 4) 1 1 4 = padToWidth [5, 7] 2 1 1 4 :=
  ⟨by norm_num, padToWidth_identity.1 [1, 2, 3] 3 1 1 2 (by norm_num),
    padToWidth_identity.2 [5, 7] 2 1 1 4⟩

/-! ### Images, options, detector preprocessing

From `packages/core/src/types.ts`, `packages/core/src/index.ts`
(`clamp`, `resizeImage`, `resizeLongSide`, `toFloatImage`) and
`packages/core/src/detector.ts` (`detectorPreprocess`, the variant that pads
to the stride).
-/

inductive ChannelOrder
  | rgb | rgba | bgr | bgra | gray
deriving DecidableEq

structure RasterImage where
  data : List ℚ
  width : ℕ
  height : ℕ
  channels : ℕ
  channelOrder : ChannelOrder

inductive TensorType
  | float32 | int32 | uint8
deriving DecidableEq

structure Tensor where
  data : List ℚ
  shape : List ℕ
  type : TensorType

structure RecognizerOptions where
  inputHeight : ℕ
  inputWidth : ℕ
  inputChannels : ℕ
  mean : ℚ
  std : ℚ

/-- `OcrOptions` from `packages/core/src/types.ts`.  The field `magRatio` of
the source is called `magScale` here. -/
structure OcrOptions where
  canvasSize : ℚ
  magScale : ℚ
  align : ℕ
  mean : ℚ × ℚ × ℚ
  std : ℚ × ℚ × ℚ
  textThreshold : ℚ
  lowText : ℚ
  linkThreshold : ℚ
  minSize : ℚ
  slopeThs : ℚ
  ycenterThs : ℚ
  heightThs : ℚ
  widthThs : ℚ
  addMargin : ℚ
  paragraph : Bool
  xThs : ℚ
  yThs : ℚ
  mergeLines : Bool
  maxAngleDeg : ℚ
  contrastThs : ℚ
  adjustContrast : ℚ
  langList : Option (List String)
  allowlist : Option String
  blocklist : Option String
  decoder : String
  recognizer : RecognizerOptions

/-- `DEFAULT_OCR_OPTIONS` from `packages/core/src/types.ts`. -/
def DEFAULT_OCR_OPTIONS : OcrOptions where
  canvasSize := 2560
  magScale := 1
  align := 32
  mean := (0.485, 0.456, 0.406)
  std := (0.229, 0.224, 0.225)
  textThreshold := 0.7
  lowText := 0.4
  linkThreshold := 0.4
  minSize := 20
  slopeThs := 0.1
  ycenterThs := 0.5
  heightThs := 0.5
  widthThs := 0.5
  addMargin := 0.1
  paragraph := false
  xThs := 1
  yThs := 0.5
  mergeLines := true
  maxAngleDeg := 10
  contrastThs := 0.1
  adjustContrast := 0.5
  langList := none
  allowlist := none
  blocklist := none
  decoder := "greedy"
  recognizer := ⟨64, 100, 1, 0.5, 0.5⟩

/-- `clamp(value, min, max) = Math.max(min, Math.min(max, value))`. -/
def clamp (value lo hi : ℚ) : ℚ := max lo (min hi value)

/-- Integer clamp used where the source clamps an already integral value. -/
def iclamp (value lo hi : ℤ) : ℤ := max lo (min hi value)

/-- `Math.round` of JavaScript: halves round toward positive infinity. -/
def jsRound (q : ℚ) : ℤ := ⌊q + 1 / 2⌋

/-- A `Uint8Array` store wraps modulo 256. -/
def u8 (z : ℤ) : ℤ := z % 256

/-- Read of a possibly negative index (JavaScript would yield `undefined`);
in-bounds at every call site of interest. -/
def zread (data : List ℚ) (i : ℤ) : ℚ :=
  if 0 ≤ i then data.getD i.toNat 0 else 0

/-- `resizeImage` (bilinear variant of `packages/core/src/index.ts`): source
coordinate `(x+0.5)·scale − 0.5`, corners clamped, channels interpolated and
rounded into the `Uint8Array`. -/
def resizeImage (image : RasterImage) (targetWidth targetHeight : ℕ) : RasterImage :=
  if targetWidth = image.width ∧ targetHeight = image.height then image
  else
    let xScale : ℚ := image.width / targetWidth
    let yScale : ℚ := image.height / targetHeight
    { data :=
        (List.range targetHeight).flatMap fun y =>
          (List.range targetWidth).flatMap fun x =>
            (List.range image.channels).map fun c =>
              let srcY : ℚ := (y + 1 / 2) * yScale - 1 / 2
              let y0 : ℤ := iclamp ⌊srcY⌋ 0 (image.height - 1)
              let y1 : ℤ := iclamp (y0 + 1) 0 (image.height - 1)
              let wy : ℚ := srcY - y0
              let srcX : ℚ := (x + 1 / 2) * xScale - 1 / 2
              let x0 : ℤ := iclamp ⌊srcX⌋ 0 (image.width - 1)
              let x1 : ℤ := iclamp (x0 + 1) 0 (image.width - 1)
              let wx : ℚ := srcX - x0
              let v00 := zread image.data ((y0 * image.width + x0) * image.channels + c)
              let v10 := zread image.data ((y0 * image.width + x1) * image.channels + c)
              let v01 := zread image.data ((y1 * image.width + x0) * image.channels + c)
              let v11 := zread image.data ((y1 * image.width + x1) * image.channels + c)
              let top := v00 + (v10 - v00) * wx
              let bottom := v01 + (v11 - v01) * wx
              ((u8 (jsRound (top + (bottom - top) * wy)) : ℤ) : ℚ)
      width := targetWidth
      height := targetHeight
      channels := image.channels
      channelOrder := image.channelOrder }

structure ResizeResult where
  image : RasterImage
  scale : ℚ

/-- `resizeLongSide` (the variant without stride padding,
`packages/core/src/index.ts` lines 454-467): scale the longer side to
`maxSide`, flooring each dimension, with a minimum of 1; the `align` argument
is unused there. -/
def resizeLongSide (image : RasterImage) (maxSide : ℚ) (_align : ℕ) : ResizeResult :=
  let maxDim : ℚ := max image.width image.height
  let scale : ℚ := maxSide / maxDim
  let targetWidth : ℕ := (max 1 ⌊(image.width : ℚ) * scale⌋).toNat
  let targetHeight : ℕ := (max 1 ⌊(image.height : ℚ) * scale⌋).toNat
  ⟨resizeImage image targetWidth targetHeight, scale⟩

structure FloatImage where
  data : List ℚ
  width : ℕ
  height : ℕ
  channels : ℕ

/-- `toFloatImage`: `(channel/255 − mean)·(1/std)` in HWC layout, swapping
BGR(A) inputs to RGB. -/
def toFloatImage (image : RasterImage) (mean std : ℚ × ℚ × ℚ) : FloatImage :=
  let isBgr := image.channelOrder = ChannelOrder.bgr ∨ image.channelOrder = ChannelOrder.bgra
  { data :=
      (List.range image.height).flatMap fun y =>
        (List.range image.width).flatMap fun x =>
          let srcIndex := (y * image.width + x) * image.channels
          let c0 := image.data.getD srcIndex 0 / 255
          let c1 := image.data.getD (srcIndex + 1) 0 / 255
          let c2 := image.data.getD (srcIndex + 2) 0 / 255
          let r := if isBgr then c2 else c0
          let g := c1
          let b := if isBgr then c0 else c2
          [(r - mean.1) * (1 / std.1), (g - mean.2.1) * (1 / std.2.1),
            (b - mean.2.2) * (1 / std.2.2)]
    width := image.width
    height := image.height
    channels := 3 }

structure DetectorPreprocessResult where
  input : Tensor
  resized : RasterImage
  padded : RasterImage
  padRight : ℕ
  padBottom : ℕ
  scaleX : ℚ
  scaleY : ℚ

/-- `detectorPreprocess` (`packages/core/src/detector.ts`): aspect-preserving
resize of the longer side to `min(canvasSize, max(W,H)·magRatio)`, zero
padding right/bottom to multiples of `align || 32`, float normalization, and
packing into a `[1, 3, H, W]` NCHW tensor. -/
def detectorPreprocess (image : RasterImage) (options : OcrOptions) :
    DetectorPreprocessResult :=
  let targetSize : ℚ :=
    min options.canvasSize (max (image.width : ℚ) (image.height : ℚ) * options.magScale)
  let rr := resizeLongSide image targetSize options.align
  let resized := rr.image
  let stride : ℕ := if options.align = 0 then 32 else options.align
  let padBottom : ℕ :=
    if resized.height % stride = 0 then 0 else stride - resized.height % stride
  let padRight : ℕ :=
    if resized.width % stride = 0 then 0 else stride - resized.width % stride
  let paddedWidth := resized.width + padRight
  let paddedHeight := resized.height + padBottom
  let paddedData :=
    (List.range paddedHeight).flatMap fun y =>
      (List.range (paddedWidth * resized.channels)).map fun i =>
        if y < resized.height ∧ i < resized.width * resized.channels then
          resized.data.getD (y * resized.width * resized.channels + i) 0
        else 0
  let padded : RasterImage :=
    ⟨paddedData, paddedWidth, paddedHeight, resized.channels, resized.channelOrder⟩
  let floatImage := toFloatImage padded options.mean options.std
  let w := floatImage.width
  let h := floatImage.height
  let nchw :=
    (List.range 3).flatMap fun c =>
      (List.range (h * w)).map fun i => floatImage.data.getD (i * 3 + c) 0
  { input := ⟨nchw, [1, 3, h, w], TensorType.float32⟩
    resized := resized
    padded := padded
    padRight := padRight
    padBottom := padBottom
    scaleX := (resized.width : ℚ) / image.width
    scaleY := (resized.height : ℚ) / image.height }

lemma resizeImage_width (image : RasterImage) (tw th : ℕ) :
    (resizeImage image tw th).width = tw := by
  unfold resizeImage
  by_cases h : tw = image.width ∧ th = image.height
  · rw [if_pos h]; exact h.1.symm
  · rw [if_neg h]

lemma resizeImage_height (image : RasterImage) (tw th : ℕ) :
    (resizeImage image tw th).height = th := by
  unfold resizeImage
  by_cases h : tw = image.width ∧ th = image.height
  · rw [if_pos h]; exact h.2.symm
  · rw [if_neg h]

lemma pad_eq_mul (a h : ℕ) (ha : 0 < a) (_hr : h % a ≠ 0) :
    h + (a - h % a) = a * (h / a + 1) := by
  have hdm := Nat.div_add_mod h a
  have hlt : h % a < a := Nat.mod_lt h ha
  calc h + (a - h % a) = a * (h / a) + h % a + (a - h % a) := by rw [hdm]
    _ = a * (h / a) + (h % a + (a - h % a)) := by rw [Nat.add_assoc]
    _ = a * (h / a) + a := by rw [Nat.add_sub_cancel' hlt.le]
    _ = a * (h / a + 1) := by rw [Nat.mul_add, Nat.mul_one]

lemma dvd_pad (a h : ℕ) (ha : 0 < a) :
    a ∣ (h + (if h % a = 0 then 0 else a - h % a)) := by
  by_cases hr : h % a = 0
  · rw [if_pos hr, Nat.add_zero]
    exact Nat.dvd_of_mod_eq_zero hr
  · rw [if_neg hr, pad_eq_mul a h ha hr]
    exact dvd_mul_right a _

lemma pad_le (a h m : ℕ) (ha : 0 < a) (hdvd : a ∣ m) (hle : h ≤ m) :
    h + (if h % a = 0 then 0 else a - h % a) ≤ m := by
  by_cases hr : h % a = 0
  · simpa [hr] using hle
  · rw [if_neg hr, pad_eq_mul a h ha hr]
    obtain ⟨j, rfl⟩ := hdvd
    have hdm := Nat.div_add_mod h a
    have hpos : 0 < h % a := Nat.pos_of_ne_zero hr
    have hdivlt : a * (h / a) < h := by
      calc a * (h / a) < a * (h / a) + h % a := Nat.lt_add_of_pos_right hpos
        _ = h := hdm
    have hdiv : h / a < j := by
      by_contra hge
      push_neg at hge
      have h1 : a * j ≤ a * (h / a) := Nat.mul_le_mul_left a hge
      exact absurd (lt_of_le_of_lt h1 (lt_of_lt_of_le hdivlt hle)) (lt_irrefl _)
    exact Nat.mul_le_mul_left a (Nat.succ_le_of_lt hdiv)

lemma scaled_floor_le (d : ℕ) (maxDim : ℚ) (hdle : (d : ℚ) ≤ maxDim) (hmd : 0 < maxDim)
    (maxSide : ℚ) (k : ℤ) (hk : 0 < k) (hms : maxSide ≤ (k : ℚ)) :
    (max 1 ⌊(d : ℚ) * (maxSide / maxDim)⌋).toNat ≤ k.toNat := by
  have hfl : ⌊(d : ℚ) * (maxSide / maxDim)⌋ ≤ k := by
    have hble : (d : ℚ) * (maxSide / maxDim) ≤ (k : ℚ) := by
      rcases le_or_lt maxSide 0 with hms0 | hms0
      · have hnp : (d : ℚ) * (maxSide / maxDim) ≤ 0 :=
          mul_nonpos_iff.mpr (Or.inl ⟨Nat.cast_nonneg d,
            div_nonpos_of_nonpos_of_nonneg hms0 hmd.le⟩)
        exact le_trans hnp (by exact_mod_cast hk.le)
      · have hdiv : (d : ℚ) / maxDim ≤ 1 := (div_le_one hmd).mpr hdle
        have heq : (d : ℚ) * (maxSide / maxDim) = maxSide * ((d : ℚ) / maxDim) := by ring
        rw [heq]
        exact le_trans (mul_le_of_le_one_right hms0.le hdiv) hms
    calc ⌊(d : ℚ) * (maxSide / maxDim)⌋ ≤ ⌊(k : ℚ)⌋ := Int.floor_le_floor hble
      _ = k := Int.floor_intCast k
  exact Int.toNat_le_toNat (max_le hk hfl)

/-- The tensor shape emitted by `detectorPreprocess`, in terms of the resized
dimensions and the stride. -/
lemma detectorPreprocess_shape_eq (image : RasterImage) (options : OcrOptions) :
    (detectorPreprocess image options).input.shape =
      [1, 3,
        (detectorPreprocess image options).resized.height +
          (if (detectorPreprocess image options).resized.height %
              (if options.align = 0 then 32 else options.align) = 0 then 0
           else (if options.align = 0 then 32 else options.align) -
             (detectorPreprocess image options).resized.height %
               (if options.align = 0 then 32 else options.align)),
        (detectorPreprocess image options).resized.width +
          (if (detectorPreprocess image options).resized.width %
              (if options.align = 0 then 32 else options.align) = 0 then 0
           else (if options.align = 0 then 32 else options.align) -
             (detectorPreprocess image options).resized.width %
               (if options.align = 0 then 32 else options.align))] := rfl

/-- The concrete 33×16 RGB image used in the C7 counterexample and the C7
witness. -/
def exImageC7 : RasterImage := ⟨List.replicate 1584 0, 33, 16, 3, ChannelOrder.rgb⟩

/-- Default options with `canvasSize = 33` (not a multiple of `align = 32`). -/
def exOptionsC7 : OcrOptions := { DEFAULT_OCR_OPTIONS with canvasSize := 33 }

/-- C7 counterexample: with `canvasSize = 33` and `align = 32`, a 33×16 image
is resized to 33×16 and then padded to 64×32, so `max(H', W') = 64 > 33`
violates the claimed bound `max(H', W') ≤ canvasSize` (padding to the stride
can exceed `canvasSize` when `align` does not divide it). -/
theorem detectorPreprocess_exceeds_canvas :
    (detectorPreprocess exImageC7 exOptionsC7).input.shape = [1, 3, 32, 64] ∧
    ¬ ((64 : ℚ) ≤ exOptionsC7.canvasSize) := by
  have hmax : max ((exImageC7.width : ℕ) : ℚ) ((exImageC7.height : ℕ) : ℚ) = 33 := by
    norm_num [exImageC7]
  have hrh : (detectorPreprocess exImageC7 exOptionsC7).resized.height = 16 := by
    show (resizeImage exImageC7 _ _).height = _
    rw [resizeImage_height]
    have h16 : Int.toNat 16 = 16 := rfl
    norm_num [exImageC7, exOptionsC7, DEFAULT_OCR_OPTIONS, h16]
  have hrw : (detectorPreprocess exImageC7 exOptionsC7).resized.width = 33 := by
    show (resizeImage exImageC7 _ _).width = _
    rw [resizeImage_width]
    have h33 : Int.toNat 33 = 33 := rfl
    norm_num [exImageC7, exOptionsC7, DEFAULT_OCR_OPTIONS, h33]
  have halign : exOptionsC7.align = 32 := rfl
  constructor
  · rw [detectorPreprocess_shape_eq, hrh, hrw, halign]
    norm_num
  · norm_num [exOptionsC7, DEFAULT_OCR_OPTIONS]

/-- C7 (amended): the detector input tensor has shape `[1, 3, H', W']` with
`H'` and `W'` multiples of `align`; whenever `canvasSize` is a positive
integer multiple of `align` (as with the defaults 2560 and 32),
`max(H', W') ≤ canvasSize`.  Without the divisibility hypothesis the bound
can fail (see the counterexample). -/
theorem detectorPreprocess_shape (image : RasterImage) (options : OcrOptions)
    (hw : 0 < image.width) (_hh : 0 < image.height) (ha : 0 < options.align)
    (k : ℤ) (hc : options.canvasSize = (k : ℚ)) (hk : 0 < k)
    (hdvd : (options.align : ℤ) ∣ k) :
    ∃ hp wp : ℕ,
      (detectorPreprocess image options).input.shape = [1, 3, hp, wp] ∧
      options.align ∣ hp ∧ options.align ∣ wp ∧
      ((max hp wp : ℕ) : ℚ) ≤ options.canvasSize := by
  have hstride : (if options.align = 0 then 32 else options.align) = options.align :=
    if_neg ha.ne'
  set ts : ℚ :=
    min options.canvasSize (max (image.width : ℚ) (image.height : ℚ) * options.magScale)
    with hts
  have hrw : (detectorPreprocess image options).resized.width =
      (max 1 ⌊(image.width : ℚ) * (ts / max (image.width : ℚ) (image.height : ℚ))⌋).toNat := by
    show (resizeImage image _ _).width = _
    rw [resizeImage_width]
  have hrh : (detectorPreprocess image options).resized.height =
      (max 1 ⌊(image.height : ℚ) * (ts / max (image.width : ℚ) (image.height : ℚ))⌋).toNat := by
    show (resizeImage image _ _).height = _
    rw [resizeImage_height]
  set H : ℕ := (detectorPreprocess image options).resized.height with hH
  set W : ℕ := (detectorPreprocess image options).resized.width with hW
  have hshape : (detectorPreprocess image options).input.shape =
      [1, 3,
        H + (if H % options.align = 0 then 0 else options.align - H % options.align),
        W + (if W % options.align = 0 then 0 else options.align - W % options.align)] := by
    have h0 := detectorPreprocess_shape_eq image options
    rw [hstride] at h0
    exact h0
  have hmd : (0 : ℚ) < max (image.width : ℚ) (image.height : ℚ) :=
    lt_max_of_lt_left (by exact_mod_cast hw)
  have hts_le : ts ≤ (k : ℚ) := hts ▸ hc ▸ min_le_left _ _
  have hWle : W ≤ k.toNat := by
    rw [hrw]
    exact scaled_floor_le image.width _ (le_max_left _ _) hmd ts k hk hts_le
  have hHle : H ≤ k.toNat := by
    rw [hrh]
    exact scaled_floor_le image.height _ (le_max_right _ _) hmd ts k hk hts_le
  have hdvdk : options.align ∣ k.toNat := by
    have h1 : ((options.align : ℕ) : ℤ) ∣ ((k.toNat : ℕ) : ℤ) := by
      rwa [Int.toNat_of_nonneg hk.le]
    exact_mod_cast h1
  refine ⟨_, _, hshape, dvd_pad options.align H ha, dvd_pad options.align W ha, ?_⟩
  have hHp := pad_le options.align H k.toNat ha hdvdk hHle
  have hWp := pad_le options.align W k.toNat ha hdvdk hWle
  have hmax : max
      (H + (if H % options.align = 0 then 0 else options.align - H % options.align))
      (W + (if W % options.align = 0 then 0 else options.align - W % options.align)) ≤
      k.toNat := max_le hHp hWp
  rw [hc]
  calc ((max
      (H + (if H % options.align = 0 then 0 else options.align - H % options.align))
      (W + (if W % options.align = 0 then 0 else options.align - W % options.align)) : ℕ) : ℚ)
      ≤ (k.toNat : ℚ) := by exact_mod_cast hmax
    _ = (k : ℚ) := by exact_mod_cast Int.toNat_of_nonneg hk.le

/-- Witness for C7 at a concrete image with the default options
(`canvasSize = 2560 = 80·32`, `align = 32`). -/
theorem detectorPreprocess_shape_witness :
    ∃ hp wp : ℕ,
      (detectorPreprocess ⟨List.replicate 1584 0, 33, 16, 3, ChannelOrder.rgb⟩
          DEFAULT_OCR_OPTIONS).input.shape = [1, 3, hp, wp] ∧
      DEFAULT_OCR_OPTIONS.align ∣ hp ∧ DEFAULT_OCR_OPTIONS.align ∣ wp ∧
      ((max hp wp : ℕ) : ℚ) ≤ DEFAULT_OCR_OPTIONS.canvasSize :=
  detectorPreprocess_shape ⟨List.replicate 1584 0, 33, 16, 3, ChannelOrder.rgb⟩
    DEFAULT_OCR_OPTIONS (by norm_num) (by norm_num) (by norm_num [DEFAULT_OCR_OPTIONS])
    2560 (by norm_num [DEFAULT_OCR_OPTIONS]) (by norm_num) (by norm_num [DEFAULT_OCR_OPTIONS])

/-! ### Detector box grouping

From `packages/core/src/detector.ts`, `groupTextBoxes`: truncation of the
incoming polygons, slope classification, y-center line grouping, x-gap
cluster merging with margins for the horizontal boxes, and directional margin
expansion for the free-form quadrilaterals.
-/

/-- A four-point box with real coordinates, `p0..p3` in source point order. -/
structure BoxR where
  p0 : ℝ × ℝ
  p1 : ℝ × ℝ
  p2 : ℝ × ℝ
  p3 : ℝ × ℝ

/-- The integer polygon produced by the `Math.trunc` pass at the top of
`groupTextBoxes` (`poly[0..7]`). -/
structure PolyZ where
  x0 : ℤ
  y0 : ℤ
  x1 : ℤ
  y1 : ℤ
  x2 : ℤ
  y2 : ℤ
  x3 : ℤ
  y3 : ℤ
deriving DecidableEq

/-- `Math.trunc` on a real (rounding toward zero). -/
noncomputable def rtrunc (x : ℝ) : ℤ := if 0 ≤ x then ⌊x⌋ else ⌈x⌉

/-- `Math.trunc` on a rational (rounding toward zero). -/
def qtrunc (q : ℚ) : ℤ := if 0 ≤ q then ⌊q⌋ else ⌈q⌉

noncomputable def truncPoly (b : BoxR) : PolyZ :=
  ⟨rtrunc b.p0.1, rtrunc b.p0.2, rtrunc b.p1.1, rtrunc b.p1.2,
   rtrunc b.p2.1, rtrunc b.p2.2, rtrunc b.p3.1, rtrunc b.p3.2⟩

/-- `slopeUp = (poly[3] − poly[1]) / max(10, poly[2] − poly[0])`. -/
def slopeUp (p : PolyZ) : ℚ := ((p.y1 - p.y0 : ℤ) : ℚ) / ((max 10 (p.x1 - p.x0) : ℤ) : ℚ)

/-- `slopeDown = (poly[5] − poly[7]) / max(10, poly[4] − poly[6])`. -/
def slopeDown (p : PolyZ) : ℚ := ((p.y2 - p.y3 : ℤ) : ℚ) / ((max 10 (p.x2 - p.x3) : ℤ) : ℚ)

/-- A polygon is routed to the horizontal list iff
`max(|slopeUp|, |slopeDown|) < slopeThs`. -/
def isHorizontal (p : PolyZ) (options : OcrOptions) : Prop :=
  max |slopeUp p| |slopeDown p| < options.slopeThs

instance (p : PolyZ) (options : OcrOptions) : Decidable (isHorizontal p options) := by
  unfold isHorizontal
  exact inferInstance

/-- The horizontal-list entry
`[xMin, xMax, yMin, yMax, 0.5·(yMin+yMax), yMax−yMin]`. -/
structure HBox where
  x0 : ℤ
  x1 : ℤ
  y0 : ℤ
  y1 : ℤ
  yc : ℚ
  h : ℤ
deriving DecidableEq

def mkHBox (p : PolyZ) : HBox :=
  let xMax := max (max p.x0 p.x1) (max p.x2 p.x3)
  let xMin := min (min p.x0 p.x1) (min p.x2 p.x3)
  let yMax := max (max p.y0 p.y1) (max p.y2 p.y3)
  let yMin := min (min p.y0 p.y1) (min p.y2 p.y3)
  ⟨xMin, xMax, yMin, yMax, (1 / 2 : ℚ) * ((yMin : ℚ) + (yMax : ℚ)), yMax - yMin⟩

/-- `Math.hypot` of two integers. -/
noncomputable def hypotZ (dx dy : ℤ) : ℝ := Real.sqrt ((dx : ℝ) ^ 2 + (dy : ℝ) ^ 2)

/-- The free-form branch of `groupTextBoxes`: directional margin expansion
with `margin = Math.trunc(1.44 · addMargin · min(width, height))` and the
edge angles `theta13`, `theta24` taken through `Math.atan`. -/
noncomputable def freeQuad (p : PolyZ) (options : OcrOptions) : BoxR :=
  let hgt := hypotZ (p.x3 - p.x0) (p.y3 - p.y0)
  let wdt := hypotZ (p.x1 - p.x0) (p.y1 - p.y0)
  let margin : ℤ := rtrunc ((1.44 : ℝ) * (options.addMargin : ℝ) * min wdt hgt)
  let theta13 := |Real.arctan (((p.y0 - p.y2 : ℤ) : ℝ) / ((max 10 (p.x0 - p.x2) : ℤ) : ℝ))|
  let theta24 := |Real.arctan (((p.y1 - p.y3 : ℤ) : ℝ) / ((max 10 (p.x1 - p.x3) : ℤ) : ℝ))|
  ⟨((p.x0 : ℝ) - Real.cos theta13 * (margin : ℝ), (p.y0 : ℝ) - Real.sin theta13 * (margin : ℝ)),
   ((p.x1 : ℝ) + Real.cos theta24 * (margin : ℝ), (p.y1 : ℝ) - Real.sin theta24 * (margin : ℝ)),
   ((p.x2 : ℝ) + Real.cos theta13 * (margin : ℝ), (p.y2 : ℝ) + Real.sin theta13 * (margin : ℝ)),
   ((p.x3 : ℝ) - Real.cos theta24 * (margin : ℝ), (p.y3 : ℝ) + Real.sin theta24 * (margin : ℝ))⟩

/-- The classification pass: one fold over the truncated polygons, appending
to the horizontal tuple list or to the free list. -/
noncomputable def classifyPolys (polys : List PolyZ) (options : OcrOptions) :
    List HBox × List BoxR :=
  polys.foldl
    (fun acc p =>
      if isHorizontal p options then (acc.1 ++ [mkHBox p], acc.2)
      else (acc.1, acc.2 ++ [freeQuad p options]))
    ([], [])

/-- Mean of the tracked y-centers of the running line (`bYcenter`). -/
def meanYc (l : List HBox) : ℚ := (l.map (fun b => b.yc)).sum / l.length

/-- Mean of the tracked heights of the running line or cluster (`bHeight`). -/
def meanH (l : List HBox) : ℚ := (l.map (fun b => (b.h : ℚ))).sum / l.length

/-- One step of the y-center line-grouping loop.  The running `bHeight` and
`bYcenter` arrays of the source always mirror the running `newBox` list, so
the state keeps only the finished lines and the running line. -/
def lineStep (options : OcrOptions) (st : List (List HBox) × List HBox) (p : HBox) :
    List (List HBox) × List HBox :=
  if st.2 = [] then (st.1, [p])
  else if |meanYc st.2 - p.yc| < options.ycenterThs * meanH st.2 then (st.1, st.2 ++ [p])
  else (st.1 ++ [st.2], [p])

/-- The y-center line grouping over the yCenter-sorted horizontal list. -/
def combineLines (options : OcrOptions) (hs : List HBox) : List (List HBox) :=
  let sorted := List.insertionSort (fun a b => a.yc ≤ b.yc) hs
  let st := sorted.foldl (lineStep options) ([], [])
  st.1 ++ (if st.2 = [] then [] else [st.2])

/-- An axis-aligned integer rectangle `[xMin, xMax, yMin, yMax]`. -/
structure RectZ where
  x0 : ℤ
  x1 : ℤ
  y0 : ℤ
  y1 : ℤ
deriving DecidableEq

def zMinList : List ℤ → ℤ
  | [] => 0
  | x :: xs => xs.foldl min x

def zMaxList : List ℤ → ℤ
  | [] => 0
  | x :: xs => xs.foldl max x

/-- Margin-expanded rectangle of a single horizontal box
(`margin = Math.trunc(addMargin · min(width, height))`). -/
def singletonRect (options : OcrOptions) (b : HBox) : RectZ :=
  let margin := qtrunc (options.addMargin * ((min (b.x1 - b.x0) b.h : ℤ) : ℚ))
  ⟨b.x0 - margin, b.x1 + margin, b.y0 - margin, b.y1 + margin⟩

/-- Margin-expanded axis-aligned union of a cluster of boxes. -/
def clusterRect (options : OcrOptions) (cluster : List HBox) : RectZ :=
  if cluster.length = 1 then
    match cluster with
    | [b] => singletonRect options b
    | _ => ⟨0, 0, 0, 0⟩
  else
    let xMin := zMinList (cluster.map (fun b => b.x0))
    let xMax2 := zMaxList (cluster.map (fun b => b.x1))
    let yMin := zMinList (cluster.map (fun b => b.y0))
    let yMax := zMaxList (cluster.map (fun b => b.y1))
    let margin := qtrunc (options.addMargin * ((min (xMax2 - xMin) (yMax - yMin) : ℤ) : ℚ))
    ⟨xMin - margin, xMax2 + margin, yMin - margin, yMax + margin⟩

/-- One step of the x-gap cluster-merging loop inside a line
(`xMax` is the running right edge). -/
def clusterStep (options : OcrOptions)
    (st : List (List HBox) × List HBox × ℤ) (b : HBox) :
    List (List HBox) × List HBox × ℤ :=
  if st.2.1 = [] then (st.1, [b], b.x1)
  else if |meanH st.2.1 - (b.h : ℚ)| < options.heightThs * meanH st.2.1 ∧
      ((b.x0 - st.2.2 : ℤ) : ℚ) < options.widthThs * ((b.y1 - b.y0 : ℤ) : ℚ) then
    (st.1, st.2.1 ++ [b], b.x1)
  else (st.1 ++ [st.2.1], [b], b.x1)

/-- Merge one line: a single box keeps its margin-expanded rectangle,
otherwise the boxes are sorted by `xMin`, clustered by the height/gap
condition, and each cluster is emitted as a margin-expanded rectangle. -/
def mergeLine (options : OcrOptions) (line : List HBox) : List RectZ :=
  if line.length = 1 then
    match line with
    | [b] => [singletonRect options b]
    | _ => []
  else
    let sorted := List.insertionSort (fun a b => a.x0 ≤ b.x0) line
    let st := sorted.foldl (clusterStep options) ([], [], 0)
    let clusters := st.1 ++ (if st.2.1 = [] then [] else [st.2.1])
    clusters.map (clusterRect options)

/-- The merged rectangles of all lines, in line-major order. -/
def horizontalRects (options : OcrOptions) (hs : List HBox) : List RectZ :=
  (combineLines options hs).flatMap (mergeLine options)

/-- An integer rectangle as the axis-aligned 4-point polygon
`[[x0,y0],[x1,y0],[x1,y1],[x0,y1]]`. -/
def rectToBox (r : RectZ) : BoxR :=
  ⟨((r.x0 : ℝ), (r.y0 : ℝ)), ((r.x1 : ℝ), (r.y0 : ℝ)),
   ((r.x1 : ℝ), (r.y1 : ℝ)), ((r.x0 : ℝ), (r.y1 : ℝ))⟩

/-- The `minSize` filter on horizontal boxes, evaluated on the integer
rectangle (the box corners are exactly its casts). -/
def rectSizeOK (options : OcrOptions) (r : RectZ) : Prop :=
  options.minSize < ((max |r.x1 - r.x0| |r.y1 - r.y0| : ℤ) : ℚ)

instance (options : OcrOptions) (r : RectZ) : Decidable (rectSizeOK options r) := by
  unfold rectSizeOK
  exact inferInstance

def boxMinX (b : BoxR) : ℝ := min (min b.p0.1 b.p1.1) (min b.p2.1 b.p3.1)
def boxMaxX (b : BoxR) : ℝ := max (max b.p0.1 b.p1.1) (max b.p2.1 b.p3.1)
def boxMinY (b : BoxR) : ℝ := min (min b.p0.2 b.p1.2) (min b.p2.2 b.p3.2)
def boxMaxY (b : BoxR) : ℝ := max (max b.p0.2 b.p1.2) (max b.p2.2 b.p3.2)

/-- The `minSize` filter on free quadrilaterals. -/
def freeSizeOK (options : OcrOptions) (b : BoxR) : Prop :=
  (options.minSize : ℝ) < max (boxMaxX b - boxMinX b) (boxMaxY b - boxMinY b)

noncomputable instance (options : OcrOptions) (b : BoxR) : Decidable (freeSizeOK options b) := by
  unfold freeSizeOK
  exact inferInstance

structure GroupResult where
  horizontalList : List BoxR
  freeList : List BoxR

/-- `groupTextBoxes` from `packages/core/src/detector.ts`. -/
noncomputable def groupTextBoxes (boxes : List BoxR) (options : OcrOptions) : GroupResult :=
  if boxes.isEmpty then ⟨[], []⟩
  else
    let polys := boxes.map truncPoly
    let cls := classifyPolys polys options
    let rects := horizontalRects options cls.1
    let rectsF := if options.minSize ≠ 0 then rects.filter (fun r => rectSizeOK options r)
      else rects
    let freesF := if options.minSize ≠ 0 then cls.2.filter (fun b => freeSizeOK options b)
      else cls.2
    ⟨rectsF.map rectToBox, freesF⟩

/-- The free-form expansion as the spec describes it, with the margin the
code actually uses: `Math.trunc(1.44 · addMargin · min(w, h))` along the
polygon's own edge directions (arctangent of each diagonal). -/
noncomputable def paddedFreeQuadSpec (p : PolyZ) (options : OcrOptions) : BoxR :=
  let hgt := hypotZ (p.x3 - p.x0) (p.y3 - p.y0)
  let wdt := hypotZ (p.x1 - p.x0) (p.y1 - p.y0)
  let margin : ℤ := rtrunc ((1.44 : ℝ) * (options.addMargin : ℝ) * min wdt hgt)
  let theta13 := |Real.arctan (((p.y0 - p.y2 : ℤ) : ℝ) / ((max 10 (p.x0 - p.x2) : ℤ) : ℝ))|
  let theta24 := |Real.arctan (((p.y1 - p.y3 : ℤ) : ℝ) / ((max 10 (p.x1 - p.x3) : ℤ) : ℝ))|
  ⟨((p.x0 : ℝ) - Real.cos theta13 * (margin : ℝ), (p.y0 : ℝ) - Real.sin theta13 * (margin : ℝ)),
   ((p.x1 : ℝ) + Real.cos theta24 * (margin : ℝ), (p.y1 : ℝ) - Real.sin theta24 * (margin : ℝ)),
   ((p.x2 : ℝ) + Real.cos theta13 * (margin : ℝ), (p.y2 : ℝ) + Real.sin theta13 * (margin : ℝ)),
   ((p.x3 : ℝ) - Real.cos theta24 * (margin : ℝ), (p.y3 : ℝ) + Real.sin theta24 * (margin : ℝ))⟩

/-- The free-form expansion as claim C6 states it: margin
`addMargin · min(w, h)` (no 1.44 factor and no truncation). -/
noncomputable def paddedFreeQuadClaim (p : PolyZ) (options : OcrOptions) : BoxR :=
  let hgt := hypotZ (p.x3 - p.x0) (p.y3 - p.y0)
  let wdt := hypotZ (p.x1 - p.x0) (p.y1 - p.y0)
  let margin : ℝ := (options.addMargin : ℝ) * min wdt hgt
  let theta13 := |Real.arctan (((p.y0 - p.y2 : ℤ) : ℝ) / ((max 10 (p.x0 - p.x2) : ℤ) : ℝ))|
  let theta24 := |Real.arctan (((p.y1 - p.y3 : ℤ) : ℝ) / ((max 10 (p.x1 - p.x3) : ℤ) : ℝ))|
  ⟨((p.x0 : ℝ) - Real.cos theta13 * margin, (p.y0 : ℝ) - Real.sin theta13 * margin),
   ((p.x1 : ℝ) + Real.cos theta24 * margin, (p.y1 : ℝ) - Real.sin theta24 * margin),
   ((p.x2 : ℝ) + Real.cos theta13 * margin, (p.y2 : ℝ) + Real.sin theta13 * margin),
   ((p.x3 : ℝ) - Real.cos theta24 * margin, (p.y3 : ℝ) + Real.sin theta24 * margin)⟩

lemma freeQuad_eq_spec (p : PolyZ) (options : OcrOptions) :
    freeQuad p options = paddedFreeQuadSpec p options := rfl

lemma classifyPolys_fold (options : OcrOptions) :
    ∀ (polys : List PolyZ) (a : List HBox) (b : List BoxR),
      polys.foldl
        (fun acc p =>
          if isHorizontal p options then (acc.1 ++ [mkHBox p], acc.2)
          else (acc.1, acc.2 ++ [freeQuad p options]))
        (a, b) =
      (a ++ (polys.filter (fun p => isHorizontal p options)).map mkHBox,
       b ++ (polys.filter (fun p => ¬ isHorizontal p options)).map
         (fun p => freeQuad p options)) := by
  intro polys
  induction polys with
  | nil => intro a b; simp
  | cons p rest ih =>
      intro a b
      by_cases hp : isHorizontal p options
      · rw [List.foldl_cons, if_pos hp, ih]
        simp [hp, List.filter_cons]
      · rw [List.foldl_cons, if_neg hp, ih]
        simp [hp, List.filter_cons]

lemma classifyPolys_eq (polys : List PolyZ) (options : OcrOptions) :
    classifyPolys polys options =
      ((polys.filter (fun p => isHorizontal p options)).map mkHBox,
       (polys.filter (fun p => ¬ isHorizontal p options)).map
         (fun p => freeQuad p options)) := by
  unfold classifyPolys
  rw [classifyPolys_fold options polys [] []]
  simp

/-- C6 (amended): the free list emitted by grouping consists exactly of the
free-classified truncated polygons expanded by the directional margin
`trunc(1.44 · addMargin · min(w, h))`, size-filtered when `minSize ≠ 0`. -/
theorem groupTextBoxes_freeList_eq (boxes : List BoxR) (options : OcrOptions) :
    (groupTextBoxes boxes options).freeList =
      (if options.minSize ≠ 0 then
        (((boxes.map truncPoly).filter (fun p => ¬ isHorizontal p options)).map
          (fun p => paddedFreeQuadSpec p options)).filter (fun b => freeSizeOK options b)
      else
        ((boxes.map truncPoly).filter (fun p => ¬ isHorizontal p options)).map
          (fun p => paddedFreeQuadSpec p options)) := by
  unfold groupTextBoxes
  by_cases hempty : boxes.isEmpty
  · rw [if_pos hempty]
    have hnil : boxes = [] := List.isEmpty_iff.mp hempty
    subst hnil
    simp
  · rw [if_neg hempty]
    show (if options.minSize ≠ 0 then
        (classifyPolys (boxes.map truncPoly) options).2.filter
          (fun b => freeSizeOK options b)
      else (classifyPolys (boxes.map truncPoly) options).2) = _
    rw [classifyPolys_eq]
    simp only [freeQuad_eq_spec]

/-- The concrete free-form box of the C6 counterexample. -/
noncomputable def exBoxC6 : BoxR := ⟨(0, 0), (30, 4), (60, 0), (3, 4)⟩

/-- Its truncated polygon. -/
def exPolyC6 : PolyZ := ⟨0, 0, 30, 4, 60, 0, 3, 4⟩

lemma exBoxC6_trunc : truncPoly exBoxC6 = exPolyC6 := by
  unfold truncPoly exBoxC6 exPolyC6 rtrunc
  norm_num

lemma exPolyC6_not_horizontal : ¬ isHorizontal exPolyC6 DEFAULT_OCR_OPTIONS := by
  unfold isHorizontal slopeUp slopeDown exPolyC6 DEFAULT_OCR_OPTIONS
  rw [max_lt_iff]
  rintro ⟨h1, -⟩
  rw [abs_lt] at h1
  norm_num [max_def] at h1

lemma sqrt_nine_sixteen : Real.sqrt ((3 : ℝ) ^ 2 + (4 : ℝ) ^ 2) = 5 := by
  rw [show ((3 : ℝ) ^ 2 + (4 : ℝ) ^ 2) = 5 ^ 2 by norm_num]
  exact Real.sqrt_sq (by norm_num)

lemma sqrt_big_ge_five : (5 : ℝ) ≤ Real.sqrt ((30 : ℝ) ^ 2 + (4 : ℝ) ^ 2) := by
  have h5 : (5 : ℝ) = Real.sqrt (5 ^ 2) := (Real.sqrt_sq (by norm_num)).symm
  rw [h5]
  exact Real.sqrt_le_sqrt (by norm_num)

lemma exPolyC6_margin_terms :
    min (hypotZ (exPolyC6.x1 - exPolyC6.x0) (exPolyC6.y1 - exPolyC6.y0))
      (hypotZ (exPolyC6.x3 - exPolyC6.x0) (exPolyC6.y3 - exPolyC6.y0)) = 5 := by
  have h1 : hypotZ (exPolyC6.x1 - exPolyC6.x0) (exPolyC6.y1 - exPolyC6.y0) =
      Real.sqrt ((30 : ℝ) ^ 2 + (4 : ℝ) ^ 2) := by
    unfold hypotZ exPolyC6
    norm_num
  have h2 : hypotZ (exPolyC6.x3 - exPolyC6.x0) (exPolyC6.y3 - exPolyC6.y0) = 5 := by
    unfold hypotZ exPolyC6
    norm_num
    rw [show (25 : ℝ) = 5 ^ 2 by norm_num]
    exact Real.sqrt_sq (by norm_num)
  rw [h1, h2, min_eq_right (le_trans (le_of_eq rfl) sqrt_big_ge_five)]

lemma exPolyC6_freeQuad :
    freeQuad exPolyC6 DEFAULT_OCR_OPTIONS = (⟨(0, 0), (30, 4), (60, 0), (3, 4)⟩ : BoxR) := by
  unfold freeQuad
  dsimp only
  rw [exPolyC6_margin_terms]
  unfold exPolyC6 DEFAULT_OCR_OPTIONS
  norm_num [Real.arctan_zero, rtrunc]

lemma exPolyC6_claimQuad_x :
    (paddedFreeQuadClaim exPolyC6 DEFAULT_OCR_OPTIONS).p0.1 = -(1 / 2 : ℝ) := by
  unfold paddedFreeQuadClaim
  dsimp only
  rw [exPolyC6_margin_terms]
  unfold exPolyC6 DEFAULT_OCR_OPTIONS
  norm_num [Real.arctan_zero]

lemma exQuadC6_sizeOK :
    freeSizeOK DEFAULT_OCR_OPTIONS (⟨(0, 0), (30, 4), (60, 0), (3, 4)⟩ : BoxR) := by
  unfold freeSizeOK boxMinX boxMaxX boxMinY boxMaxY DEFAULT_OCR_OPTIONS
  norm_num [min_def, max_def]

/-- C6 counterexample: for the free-form box `(0,0),(30,4),(60,0),(3,4)` with
the default options, grouping emits the quadrilateral unchanged (the code's
margin is `trunc(1.44 · 0.1 · 5) = 0`), while the claimed expansion by
`addMargin · min(w,h) = 0.5` would move the first corner to `x = −0.5`; the
claim is false as stated. -/
theorem groupTextBoxes_free_margin_counterexample :
    (groupTextBoxes [exBoxC6] DEFAULT_OCR_OPTIONS).freeList =
      [(⟨(0, 0), (30, 4), (60, 0), (3, 4)⟩ : BoxR)] ∧
    paddedFreeQuadClaim (truncPoly exBoxC6) DEFAULT_OCR_OPTIONS ≠
      (⟨(0, 0), (30, 4), (60, 0), (3, 4)⟩ : BoxR) := by
  constructor
  · rw [groupTextBoxes_freeList_eq, if_pos (by norm_num [DEFAULT_OCR_OPTIONS])]
    rw [show [exBoxC6].map truncPoly = [exPolyC6] from by
      rw [List.map_cons, List.map_nil, exBoxC6_trunc]]
    rw [show List.filter (fun p => ¬ isHorizontal p DEFAULT_OCR_OPTIONS) [exPolyC6]
        = [exPolyC6] from by simp [exPolyC6_not_horizontal]]
    rw [List.map_cons, List.map_nil, ← freeQuad_eq_spec, exPolyC6_freeQuad]
    rw [List.filter_eq_self.mpr ?_]
    intro b hb
    rw [List.mem_singleton] at hb
    subst hb
    simpa using exQuadC6_sizeOK
  · intro h
    rw [exBoxC6_trunc] at h
    have hx : (paddedFreeQuadClaim exPolyC6 DEFAULT_OCR_OPTIONS).p0.1 =
        ((⟨(0, 0), (30, 4), (60, 0), (3, 4)⟩ : BoxR)).p0.1 := by rw [h]
    rw [exPolyC6_claimQuad_x] at hx
    norm_num at hx

lemma groupTextBoxes_horizontalList_eq (boxes : List BoxR) (options : OcrOptions) :
    (groupTextBoxes boxes options).horizontalList =
      (if options.minSize ≠ 0 then
        (horizontalRects options (((boxes.map truncPoly).filter
          (fun p => isHorizontal p options)).map mkHBox)).filter (fun r => rectSizeOK options r)
      else horizontalRects options (((boxes.map truncPoly).filter
          (fun p => isHorizontal p options)).map mkHBox)).map rectToBox := by
  unfold groupTextBoxes
  by_cases hempty : boxes.isEmpty
  · rw [if_pos hempty]
    have hnil := List.isEmpty_iff.mp hempty
    subst hnil
    show ([] : List BoxR) = _
    split <;> rfl
  · rw [if_neg hempty]
    have h1 : (classifyPolys (boxes.map truncPoly) options).1 =
        ((boxes.map truncPoly).filter (fun p => isHorizontal p options)).map mkHBox := by
      rw [classifyPolys_eq]
    show (if options.minSize ≠ 0 then
        (horizontalRects options (classifyPolys (boxes.map truncPoly) options).1).filter
          (fun r => rectSizeOK options r)
      else horizontalRects options (classifyPolys (boxes.map truncPoly) options).1).map
        rectToBox = _
    rw [h1]

/-- C10: every box in the `horizontalList` emitted by the detector grouping is
an axis-aligned rectangle `[[x1,y1],[x2,y1],[x2,y2],[x1,y2]]` all of whose
corner coordinates are integers: the grouping truncates every incoming
polygon coordinate and every margin to an integer before building the
rectangles. -/
theorem horizontalList_integer_rects (boxes : List BoxR) (options : OcrOptions)
    (b : BoxR) (hb : b ∈ (groupTextBoxes boxes options).horizontalList) :
    ∃ x1 x2 y1 y2 : ℤ,
      b = ⟨((x1 : ℝ), (y1 : ℝ)), ((x2 : ℝ), (y1 : ℝ)),
           ((x2 : ℝ), (y2 : ℝ)), ((x1 : ℝ), (y2 : ℝ))⟩ := by
  rw [groupTextBoxes_horizontalList_eq] at hb
  obtain ⟨r, -, rfl⟩ := List.mem_map.mp hb
  exact ⟨r.x0, r.x1, r.y0, r.y1, rfl⟩

/-- The concrete horizontal box of the C10 witness. -/
noncomputable def exBoxC10 : BoxR := ⟨(0, 0), (30, 0), (30, 10), (0, 10)⟩

def exPolyC10 : PolyZ := ⟨0, 0, 30, 0, 30, 10, 0, 10⟩

def exHBoxC10 : HBox := ⟨0, 30, 0, 10, 5, 10⟩

def exRectC10 : RectZ := ⟨-1, 31, -1, 11⟩

lemma exBoxC10_trunc : truncPoly exBoxC10 = exPolyC10 := by
  unfold truncPoly exBoxC10 exPolyC10 rtrunc
  norm_num

lemma exPolyC10_horizontal : isHorizontal exPolyC10 DEFAULT_OCR_OPTIONS := by
  unfold isHorizontal slopeUp slopeDown exPolyC10 DEFAULT_OCR_OPTIONS
  rw [max_lt_iff]
  constructor <;> norm_num [max_def]

lemma exPolyC10_hbox : mkHBox exPolyC10 = exHBoxC10 := by
  unfold mkHBox exPolyC10 exHBoxC10
  norm_num [min_def, max_def]

lemma exHBoxC10_lines : combineLines DEFAULT_OCR_OPTIONS [exHBoxC10] = [[exHBoxC10]] := by
  unfold combineLines lineStep
  simp [List.insertionSort, List.orderedInsert]

lemma exHBoxC10_rects : horizontalRects DEFAULT_OCR_OPTIONS [exHBoxC10] = [exRectC10] := by
  unfold horizontalRects
  rw [exHBoxC10_lines]
  show mergeLine DEFAULT_OCR_OPTIONS [exHBoxC10] ++ [] = [exRectC10]
  rw [List.append_nil]
  unfold mergeLine singletonRect qtrunc exHBoxC10 exRectC10 DEFAULT_OCR_OPTIONS
  norm_num [min_def]

lemma exRectC10_sizeOK : rectSizeOK DEFAULT_OCR_OPTIONS exRectC10 := by
  unfold rectSizeOK exRectC10 DEFAULT_OCR_OPTIONS
  norm_num [max_def]

lemma exBoxC10_hlist : (groupTextBoxes [exBoxC10] DEFAULT_OCR_OPTIONS).horizontalList
    = [rectToBox exRectC10] := by
  rw [groupTextBoxes_horizontalList_eq, if_pos (by norm_num [DEFAULT_OCR_OPTIONS])]
  rw [show [exBoxC10].map truncPoly = [exPolyC10] from by
    rw [List.map_cons, List.map_nil, exBoxC10_trunc]]
  rw [show List.filter (fun p => isHorizontal p DEFAULT_OCR_OPTIONS) [exPolyC10]
      = [exPolyC10] from by simp [exPolyC10_horizontal]]
  rw [List.map_cons, List.map_nil, exPolyC10_hbox, exHBoxC10_rects]
  rw [List.filter_eq_self.mpr ?_, List.map_cons, List.map_nil]
  intro r hr
  rw [List.mem_singleton] at hr
  subst hr
  simpa using exRectC10_sizeOK

/-- Witness for C10: the concrete horizontal box `(0,0)-(30,10)` with default
options produces the (integer) rectangle `(-1,-1)-(31,11)` in the horizontal
list, and the theorem yields its integer corners. -/
theorem horizontalList_integer_rects_witness :
    rectToBox exRectC10 ∈ (groupTextBoxes [exBoxC10] DEFAULT_OCR_OPTIONS).horizontalList ∧
    ∃ x1 x2 y1 y2 : ℤ,
      rectToBox exRectC10 = (⟨((x1 : ℝ), (y1 : ℝ)), ((x2 : ℝ), (y1 : ℝ)),
        ((x2 : ℝ), (y2 : ℝ)), ((x1 : ℝ), (y2 : ℝ))⟩ : BoxR) := by
  have hmem : rectToBox exRectC10 ∈
      (groupTextBoxes [exBoxC10] DEFAULT_OCR_OPTIONS).horizontalList := by
    rw [exBoxC10_hlist]
    exact List.mem_singleton_self _
  exact ⟨hmem, horizontalList_integer_rects [exBoxC10] DEFAULT_OCR_OPTIONS _ hmem⟩

/-! ### Line merging of recognized results

From `packages/core/src/postprocess.ts`: `buildMetrics`, `boxUnion`,
`shouldGroup`, `groupByLine`, `mergeLineItems`, `buildMergedResult`,
`mergeOcrResultsByLine`.
-/

structure OcrResultR where
  box : BoxR
  text : String
  confidence : ℝ

structure ResultMetrics where
  result : OcrResultR
  minX : ℝ
  maxX : ℝ
  minY : ℝ
  maxY : ℝ
  height : ℝ
  yCenter : ℝ
  angleDeg : ℝ

/-- `Math.atan2` with the usual quadrant handling. -/
noncomputable def atan2R (y x : ℝ) : ℝ :=
  if 0 < x then Real.arctan (y / x)
  else if x < 0 then
    (if 0 ≤ y then Real.arctan (y / x) + Real.pi else Real.arctan (y / x) - Real.pi)
  else
    (if 0 < y then Real.pi / 2 else if y < 0 then -(Real.pi / 2) else 0)

/-- `buildMetrics`: bounding-box statistics of a result plus the absolute
angle of its first edge folded into `[0, 90]`. -/
noncomputable def buildMetrics (result : OcrResultR) : ResultMetrics :=
  let minX := boxMinX result.box
  let maxX := boxMaxX result.box
  let minY := boxMinY result.box
  let maxY := boxMaxY result.box
  let angleRaw := |atan2R (result.box.p1.2 - result.box.p0.2)
      (result.box.p1.1 - result.box.p0.1) * 180 / Real.pi|
  let angleDeg := if 90 < angleRaw then 180 - angleRaw else angleRaw
  ⟨result, minX, maxX, minY, maxY, maxY - minY, (minY + maxY) / 2, angleDeg⟩

/-- `Math.min(...)` over a nonempty list of reals (the `[]` case is
unreachable at every call site). -/
noncomputable def rMinList : List ℝ → ℝ
  | [] => 0
  | x :: xs => xs.foldl min x

/-- `Math.max(...)` over a nonempty list of reals. -/
noncomputable def rMaxList : List ℝ → ℝ
  | [] => 0
  | x :: xs => xs.foldl max x

/-- `boxUnion`: the axis-aligned union of the members' bounding boxes. -/
noncomputable def boxUnion (items : List ResultMetrics) : BoxR :=
  let minX := rMinList (items.map (fun i => i.minX))
  let maxX := rMaxList (items.map (fun i => i.maxX))
  let minY := rMinList (items.map (fun i => i.minY))
  let maxY := rMaxList (items.map (fun i => i.maxY))
  ⟨(minX, minY), (maxX, minY), (maxX, maxY), (minX, maxY)⟩

structure LineGroup where
  items : List ResultMetrics
  centerY : ℝ
  height : ℝ
  minY : ℝ
  maxY : ℝ

/-- `shouldGroup`: vertical-overlap or center-distance test combined with the
height-similarity test. -/
noncomputable def shouldGroup (item : ResultMetrics) (line : LineGroup)
    (options : OcrOptions) : Prop :=
  ((max 0 (min item.maxY line.maxY - max item.minY line.minY)) /
      (max 1 (min item.height line.height)) ≥ (options.yThs : ℝ) ∨
    |item.yCenter - line.centerY| ≤ max item.height line.height * (options.yThs : ℝ)) ∧
  max item.height line.height / max 1 (min item.height line.height) ≤
    1 + (options.heightThs : ℝ)

noncomputable instance (item : ResultMetrics) (line : LineGroup) (options : OcrOptions) :
    Decidable (shouldGroup item line options) := by
  unfold shouldGroup
  exact inferInstance

/-- `lines.find(...)` followed by the in-place update of the found group: the
first group that matches absorbs the item, otherwise a new group is appended
at the end. -/
noncomputable def insertIntoLines (options : OcrOptions) (item : ResultMetrics) :
    List LineGroup → List LineGroup
  | [] => [⟨[item], item.yCenter, item.height, item.minY, item.maxY⟩]
  | g :: rest =>
    if shouldGroup item g options then
      ⟨g.items ++ [item],
        (g.centerY * g.items.length + item.yCenter) / (g.items.length + 1),
        max g.height item.height, min g.minY item.minY, max g.maxY item.maxY⟩ :: rest
    else g :: insertIntoLines options item rest

/-- `groupByLine`: items sorted by `yCenter`, each inserted into the first
matching line. -/
noncomputable def groupByLine (items : List ResultMetrics) (options : OcrOptions) :
    List LineGroup :=
  (List.insertionSort (fun a b => a.yCenter ≤ b.yCenter) items).foldl
    (fun lines item => insertIntoLines options item lines) []

/-- `buildMergedResult`: join the nonempty texts with single spaces, take the
minimum confidence and the union box, and rebuild the metrics. -/
noncomputable def buildMergedResult (items : List ResultMetrics) : ResultMetrics :=
  buildMetrics
    ⟨boxUnion items,
     String.intercalate " " ((items.map (fun i => i.result.text)).filter
       (fun t => 0 < t.length)),
     rMinList (items.map (fun i => i.result.confidence))⟩

/-- `mergeLineItems`: within a line, sort by `(minX, minY)` and cluster
greedily by the x-gap condition; each finished cluster becomes a merged
result. -/
noncomputable def mergeLineItems (line : LineGroup) (options : OcrOptions) :
    List ResultMetrics :=
  let ordered := List.insertionSort
    (fun a b => a.minX < b.minX ∨ (a.minX = b.minX ∧ a.minY ≤ b.minY)) line.items
  let st := ordered.foldl
    (fun (acc : List ResultMetrics × List ResultMetrics) item =>
      if acc.2.isEmpty then (acc.1, [item])
      else
        let prev := acc.2.getLastD item
        if item.minX - prev.maxX ≤ (options.xThs : ℝ) * max line.height (max item.height 1)
        then (acc.1, acc.2 ++ [item])
        else (acc.1 ++ [buildMergedResult acc.2], [item]))
    ([], [])
  st.1 ++ (if st.2.isEmpty then [] else [buildMergedResult st.2])

/-- The final ordering relation of `mergeOcrResultsByLine`:
`(minY, minX)` lexicographic. -/
noncomputable def lexMinLE (a b : ResultMetrics) : Prop :=
  a.minY < b.minY ∨ (a.minY = b.minY ∧ a.minX ≤ b.minX)

noncomputable instance : DecidableRel lexMinLE := fun a b => by
  unfold lexMinLE
  exact inferInstance

instance : IsTotal ResultMetrics lexMinLE :=
  ⟨fun a b => by
    unfold lexMinLE
    rcases lt_trichotomy a.minY b.minY with h | h | h
    · exact Or.inl (Or.inl h)
    · rcases le_total a.minX b.minX with hx | hx
      · exact Or.inl (Or.inr ⟨h, hx⟩)
      · exact Or.inr (Or.inr ⟨h.symm, hx⟩)
    · exact Or.inr (Or.inl h)⟩

instance : IsTrans ResultMetrics lexMinLE :=
  ⟨fun a b c hab hbc => by
    unfold lexMinLE at *
    rcases hab with h1 | ⟨h1, h1x⟩
    · rcases hbc with h2 | ⟨h2, -⟩
      · exact Or.inl (lt_trans h1 h2)
      · exact Or.inl (h2 ▸ h1)
    · rcases hbc with h2 | ⟨h2, h2x⟩
      · exact Or.inl (h1 ▸ h2)
      · exact Or.inr ⟨h1.trans h2, le_trans h1x h2x⟩⟩

/-- `mergeOcrResultsByLine` from `packages/core/src/postprocess.ts`. -/
noncomputable def mergeOcrResultsByLine (results : List OcrResultR)
    (options : OcrOptions) : List OcrResultR :=
  if ¬ options.mergeLines ∨ results.isEmpty then results
  else
    let metrics := results.map buildMetrics
    let horizontal := metrics.filter (fun i => i.angleDeg ≤ (options.maxAngleDeg : ℝ))
    let passthrough := metrics.filter (fun i => (options.maxAngleDeg : ℝ) < i.angleDeg)
    let lines := groupByLine horizontal options
    let mergedLines := lines.flatMap (fun l => mergeLineItems l options)
    let combined := mergedLines ++ passthrough
    (List.insertionSort lexMinLE combined).map (fun i => i.result)

/-- The bounding-box fields of a metrics record agree with its carried
result (true for everything `mergeOcrResultsByLine` puts in its output). -/
def goodMetrics (m : ResultMetrics) : Prop :=
  m.minX = boxMinX m.result.box ∧ m.minY = boxMinY m.result.box

lemma goodMetrics_buildMetrics (r : OcrResultR) : goodMetrics (buildMetrics r) := ⟨rfl, rfl⟩

lemma foldl_fst_preserve {α β γ : Type} (step : List γ × β → α → List γ × β) (P : γ → Prop)
    (hstep : ∀ acc a, ∀ m ∈ (step acc a).1, m ∈ acc.1 ∨ P m) :
    ∀ (l : List α) (acc : List γ × β), (∀ m ∈ acc.1, P m) →
      ∀ m ∈ (l.foldl step acc).1, P m := by
  intro l
  induction l with
  | nil => intro acc h m hm; exact h m hm
  | cons x xs ih =>
      intro acc h m hm
      refine ih (step acc x) ?_ m hm
      intro m2 hm2
      rcases hstep acc x m2 hm2 with h2 | h2
      · exact h m2 h2
      · exact h2

lemma mergeLineItems_mem (line : LineGroup) (options : OcrOptions) {m : ResultMetrics}
    (hm : m ∈ mergeLineItems line options) : ∃ items, m = buildMergedResult items := by
  unfold mergeLineItems at hm
  rw [List.mem_append] at hm
  rcases hm with hm | hm
  · refine foldl_fst_preserve _ (fun m => ∃ items, m = buildMergedResult items) ?_ _ _
      (fun m h => absurd h (List.not_mem_nil m)) m hm
    intro acc a m2 hm2
    by_cases h1 : acc.2.isEmpty
    · rw [if_pos h1] at hm2
      exact Or.inl hm2
    · rw [if_neg h1] at hm2
      by_cases h2 : a.minX - (acc.2.getLastD a).maxX ≤
          (options.xThs : ℝ) * max line.height (max a.height 1)
      · rw [if_pos h2] at hm2
        exact Or.inl hm2
      · rw [if_neg h2] at hm2
        rw [List.mem_append] at hm2
        rcases hm2 with hm2 | hm2
        · exact Or.inl hm2
        · exact Or.inr ⟨_, (List.mem_singleton.mp hm2)⟩
  · split at hm
    · exact absurd hm (List.not_mem_nil m)
    · exact ⟨_, List.mem_singleton.mp hm⟩

/-- C2 (the sorting that the spec attributes to the orchestrator lives only
here): whenever `mergeLines` is enabled, the output of
`mergeOcrResultsByLine` is sorted by the minimum y coordinate of each
result's box, ties broken by the minimum x coordinate.  The pipeline's
`recognize` never invokes this function, which is the divergence recorded for
this claim. -/
theorem mergeOcrResultsByLine_sorted (results : List OcrResultR) (options : OcrOptions)
    (hm : options.mergeLines = true) :
    List.Pairwise (fun a b : OcrResultR =>
      boxMinY a.box < boxMinY b.box ∨
      (boxMinY a.box = boxMinY b.box ∧ boxMinX a.box ≤ boxMinX b.box))
      (mergeOcrResultsByLine results options) := by
  unfold mergeOcrResultsByLine
  by_cases hemp : results.isEmpty
  · rw [if_pos (Or.inr hemp)]
    have hnil : results = [] := List.isEmpty_iff.mp hemp
    subst hnil
    exact List.Pairwise.nil
  · rw [if_neg (by simp [hm, hemp])]
    show List.Pairwise _ ((List.insertionSort lexMinLE
        ((groupByLine ((results.map buildMetrics).filter
          (fun i => i.angleDeg ≤ (options.maxAngleDeg : ℝ))) options).flatMap
            (fun l => mergeLineItems l options) ++
          (results.map buildMetrics).filter
            (fun i => (options.maxAngleDeg : ℝ) < i.angleDeg))).map (fun i => i.result))
    set combined := (groupByLine ((results.map buildMetrics).filter
        (fun i => i.angleDeg ≤ (options.maxAngleDeg : ℝ))) options).flatMap
          (fun l => mergeLineItems l options) ++
        (results.map buildMetrics).filter
          (fun i => (options.maxAngleDeg : ℝ) < i.angleDeg) with hcomb
    have hgood : ∀ m ∈ combined, goodMetrics m := by
      intro m hmem
      rw [hcomb, List.mem_append] at hmem
      rcases hmem with hmem | hmem
      · obtain ⟨line, -, hline⟩ := List.mem_flatMap.mp hmem
        obtain ⟨items, rfl⟩ := mergeLineItems_mem line options hline
        exact goodMetrics_buildMetrics _
      · obtain ⟨r, -, rfl⟩ := List.mem_map.mp (List.mem_of_mem_filter hmem)
        exact goodMetrics_buildMetrics r
    rw [List.pairwise_map]
    have hsorted : List.Pairwise lexMinLE (List.insertionSort lexMinLE combined) :=
      List.sorted_insertionSort lexMinLE combined
    refine List.Pairwise.imp_of_mem ?_ hsorted
    intro a b ha hb hab
    have hga : goodMetrics a :=
      hgood a ((List.perm_insertionSort lexMinLE combined).mem_iff.mp ha)
    have hgb : goodMetrics b :=
      hgood b ((List.perm_insertionSort lexMinLE combined).mem_iff.mp hb)
    rcases hab with h | ⟨h1, h2⟩
    · exact Or.inl (hga.2 ▸ hgb.2 ▸ h)
    · exact Or.inr ⟨hga.2 ▸ hgb.2 ▸ h1, hga.1 ▸ hgb.1 ▸ h2⟩

/-- Witness for C2's supporting theorem (default options have
`mergeLines = true`). -/
theorem mergeOcrResultsByLine_sorted_witness :
    DEFAULT_OCR_OPTIONS.mergeLines = true ∧
    List.Pairwise (fun a b : OcrResultR =>
      boxMinY a.box < boxMinY b.box ∨
      (boxMinY a.box = boxMinY b.box ∧ boxMinX a.box ≤ boxMinX b.box))
      (mergeOcrResultsByLine [] DEFAULT_OCR_OPTIONS) :=
  ⟨rfl, mergeOcrResultsByLine_sorted [] DEFAULT_OCR_OPTIONS rfl⟩

lemma foldl_min_spec :
    ∀ (xs : List ℝ) (x : ℝ),
      (xs.foldl min x = x ∨ xs.foldl min x ∈ xs) ∧ xs.foldl min x ≤ x ∧
        ∀ y ∈ xs, xs.foldl min x ≤ y := by
  intro xs
  induction xs with
  | nil => intro x; exact ⟨Or.inl rfl, le_refl x, fun y hy => absurd hy (List.not_mem_nil y)⟩
  | cons y ys ih =>
      intro x
      rw [List.foldl_cons]
      obtain ⟨hmem, hle, hall⟩ := ih (min x y)
      refine ⟨?_, le_trans hle (min_le_left x y), ?_⟩
      · rcases hmem with h | h
        · rcases min_choice x y with hc | hc
          · exact Or.inl (h.trans hc)
          · exact Or.inr (by rw [h, hc]; exact List.mem_cons_self y ys)
        · exact Or.inr (List.mem_cons_of_mem y h)
      · intro z hz
        rcases List.mem_cons.mp hz with h | h
        · rw [h]; exact le_trans hle (min_le_right x y)
        · exact hall z h

lemma foldl_max_spec :
    ∀ (xs : List ℝ) (x : ℝ),
      (xs.foldl max x = x ∨ xs.foldl max x ∈ xs) ∧ x ≤ xs.foldl max x ∧
        ∀ y ∈ xs, y ≤ xs.foldl max x := by
  intro xs
  induction xs with
  | nil => intro x; exact ⟨Or.inl rfl, le_refl x, fun y hy => absurd hy (List.not_mem_nil y)⟩
  | cons y ys ih =>
      intro x
      rw [List.foldl_cons]
      obtain ⟨hmem, hle, hall⟩ := ih (max x y)
      refine ⟨?_, le_trans (le_max_left x y) hle, ?_⟩
      · rcases hmem with h | h
        · rcases max_choice x y with hc | hc
          · exact Or.inl (h.trans hc)
          · exact Or.inr (by rw [h, hc]; exact List.mem_cons_self y ys)
        · exact Or.inr (List.mem_cons_of_mem y h)
      · intro z hz
        rcases List.mem_cons.mp hz with h | h
        · rw [h]; exact le_trans (le_max_right x y) hle
        · exact hall z h

lemma rMinList_spec (l : List ℝ) (h : l ≠ []) :
    rMinList l ∈ l ∧ ∀ x ∈ l, rMinList l ≤ x := by
  cases l with
  | nil => exact absurd rfl h
  | cons x xs =>
      obtain ⟨hmem, hle, hall⟩ := foldl_min_spec xs x
      refine ⟨?_, ?_⟩
      · rcases hmem with h1 | h1
        · rw [rMinList, h1]; exact List.mem_cons_self x xs
        · rw [rMinList]; exact List.mem_cons_of_mem x h1
      · intro y hy
        rcases List.mem_cons.mp hy with h1 | h1
        · rw [rMinList, h1]; exact hle
        · rw [rMinList]; exact hall y h1

lemma rMaxList_spec (l : List ℝ) (h : l ≠ []) :
    rMaxList l ∈ l ∧ ∀ x ∈ l, x ≤ rMaxList l := by
  cases l with
  | nil => exact absurd rfl h
  | cons x xs =>
      obtain ⟨hmem, hle, hall⟩ := foldl_max_spec xs x
      refine ⟨?_, ?_⟩
      · rcases hmem with h1 | h1
        · rw [rMaxList, h1]; exact List.mem_cons_self x xs
        · rw [rMaxList]; exact List.mem_cons_of_mem x h1
      · intro y hy
        rcases List.mem_cons.mp hy with h1 | h1
        · rw [rMaxList, h1]; exact hle
        · rw [rMaxList]; exact hall y h1

/-- The three concrete results of the C5 line-merge example. -/
noncomputable def exFoo : OcrResultR := ⟨⟨(0, 0), (10, 0), (10, 10), (0, 10)⟩, "foo", 0.9⟩

noncomputable def exBar : OcrResultR := ⟨⟨(15, 0), (25, 0), (25, 10), (15, 10)⟩, "bar", 0.7⟩

noncomputable def exBaz : OcrResultR := ⟨⟨(40, 0), (50, 0), (50, 10), (40, 10)⟩, "baz", 0.8⟩

noncomputable def mFoo : ResultMetrics := ⟨exFoo, 0, 10, 0, 10, 10, 5, 0⟩
noncomputable def mBar : ResultMetrics := ⟨exBar, 15, 25, 0, 10, 10, 5, 0⟩
noncomputable def mBaz : ResultMetrics := ⟨exBaz, 40, 50, 0, 10, 10, 5, 0⟩

lemma exFoo_metrics : buildMetrics exFoo = mFoo := by
  unfold buildMetrics mFoo exFoo boxMinX boxMaxX boxMinY boxMaxY atan2R
  norm_num [Real.arctan_zero, min_def, max_def]

lemma exBar_metrics : buildMetrics exBar = mBar := by
  unfold buildMetrics mBar exBar boxMinX boxMaxX boxMinY boxMaxY atan2R
  norm_num [Real.arctan_zero, min_def, max_def]

lemma exBaz_metrics : buildMetrics exBaz = mBaz := by
  unfold buildMetrics mBaz exBaz boxMinX boxMaxX boxMinY boxMaxY atan2R
  norm_num [Real.arctan_zero, min_def, max_def]

noncomputable def exG1 : LineGroup := ⟨[mFoo], 5, 10, 0, 10⟩
noncomputable def exG2 : LineGroup := ⟨[mFoo, mBar], 5, 10, 0, 10⟩
noncomputable def exG3 : LineGroup := ⟨[mFoo, mBar, mBaz], 5, 10, 0, 10⟩

lemma exYcSorted :
    List.Sorted (fun a b : ResultMetrics => a.yCenter ≤ b.yCenter) [mFoo, mBar, mBaz] := by
  norm_num [List.sorted_cons, mFoo, mBar, mBaz]

lemma exSG_bar : shouldGroup mBar exG1 DEFAULT_OCR_OPTIONS := by
  unfold shouldGroup exG1 mBar mFoo DEFAULT_OCR_OPTIONS
  refine ⟨Or.inl ?_, ?_⟩ <;> norm_num [min_def, max_def]

lemma exSG_baz : shouldGroup mBaz exG2 DEFAULT_OCR_OPTIONS := by
  unfold shouldGroup exG2 mBaz DEFAULT_OCR_OPTIONS
  refine ⟨Or.inl ?_, ?_⟩ <;> norm_num [min_def, max_def]

lemma exIns1 : insertIntoLines DEFAULT_OCR_OPTIONS mFoo [] = [exG1] := rfl

lemma exIns2 : insertIntoLines DEFAULT_OCR_OPTIONS mBar [exG1] = [exG2] := by
  simp only [insertIntoLines, if_pos exSG_bar]
  norm_num [exG1, exG2, mFoo, mBar, min_def, max_def]

lemma exIns3 : insertIntoLines DEFAULT_OCR_OPTIONS mBaz [exG2] = [exG3] := by
  simp only [insertIntoLines, if_pos exSG_baz]
  norm_num [exG2, exG3, mFoo, mBar, mBaz, min_def, max_def]

lemma exGroup : groupByLine [mFoo, mBar, mBaz] DEFAULT_OCR_OPTIONS = [exG3] := by
  unfold groupByLine
  rw [List.Sorted.insertionSort_eq exYcSorted]
  simp only [List.foldl_cons, List.foldl_nil]
  rw [exIns1, exIns2, exIns3]

noncomputable def exFooBar : OcrResultR :=
  ⟨⟨(0, 0), (25, 0), (25, 10), (0, 10)⟩, "foo bar", 0.7⟩

lemma exBMR12 : buildMergedResult [mFoo, mBar] = buildMetrics exFooBar := by
  unfold buildMergedResult
  refine congrArg buildMetrics ?_
  unfold exFooBar
  congr 1
  · unfold boxUnion
    simp only [mFoo, mBar, List.map_cons, List.map_nil, rMinList, rMaxList,
      List.foldl_cons, List.foldl_nil]
    norm_num [min_def, max_def]
  · simp only [mFoo, mBar, exFoo, exBar, List.map_cons, List.map_nil, rMinList,
      List.foldl_cons, List.foldl_nil]
    norm_num [min_def]

lemma exBMR3 : buildMergedResult [mBaz] = buildMetrics exBaz := rfl

lemma exXSorted :
    List.Sorted
      (fun a b : ResultMetrics => a.minX < b.minX ∨ (a.minX = b.minX ∧ a.minY ≤ b.minY))
      [mFoo, mBar, mBaz] := by
  norm_num [List.sorted_cons, mFoo, mBar, mBaz]

lemma exMerge : mergeLineItems exG3 DEFAULT_OCR_OPTIONS =
    [buildMergedResult [mFoo, mBar], buildMergedResult [mBaz]] := by
  unfold mergeLineItems
  rw [show exG3.items = [mFoo, mBar, mBaz] from rfl,
    List.Sorted.insertionSort_eq exXSorted]
  simp only [List.foldl_cons, List.foldl_nil, List.isEmpty_nil, List.isEmpty_cons,
    List.getLastD_cons, List.getLastD_nil]
  norm_num [exG3, mFoo, mBar, mBaz, DEFAULT_OCR_OPTIONS, max_def]

noncomputable def mFooBar : ResultMetrics := ⟨exFooBar, 0, 25, 0, 10, 10, 5, 0⟩

lemma exFooBar_metrics : buildMetrics exFooBar = mFooBar := by
  unfold buildMetrics mFooBar exFooBar boxMinX boxMaxX boxMinY boxMaxY atan2R
  norm_num [Real.arctan_zero, min_def, max_def]

lemma exFinalSorted : List.Sorted lexMinLE [buildMetrics exFooBar, buildMetrics exBaz] := by
  rw [exFooBar_metrics, exBaz_metrics]
  norm_num [List.sorted_cons, lexMinLE, mFooBar, mBaz]

lemma exMergeAll :
    mergeOcrResultsByLine [exFoo, exBar, exBaz] DEFAULT_OCR_OPTIONS = [exFooBar, exBaz] := by
  unfold mergeOcrResultsByLine
  rw [if_neg (by simp [DEFAULT_OCR_OPTIONS])]
  dsimp only
  rw [show [exFoo, exBar, exBaz].map buildMetrics = [mFoo, mBar, mBaz] from by
    rw [List.map_cons, List.map_cons, List.map_cons, List.map_nil,
      exFoo_metrics, exBar_metrics, exBaz_metrics]]
  rw [show List.filter
      (fun i => i.angleDeg ≤ (DEFAULT_OCR_OPTIONS.maxAngleDeg : ℝ))
      [mFoo, mBar, mBaz] = [mFoo, mBar, mBaz] from by
    apply List.filter_eq_self.mpr
    intro a ha
    fin_cases ha <;> norm_num [mFoo, mBar, mBaz, DEFAULT_OCR_OPTIONS]]
  rw [show List.filter
      (fun i => (DEFAULT_OCR_OPTIONS.maxAngleDeg : ℝ) < i.angleDeg)
      [mFoo, mBar, mBaz] = [] from by
    rw [List.filter_eq_nil_iff]
    intro a ha
    fin_cases ha <;> norm_num [mFoo, mBar, mBaz, DEFAULT_OCR_OPTIONS]]
  rw [exGroup]
  simp only [List.flatMap_cons, List.flatMap_nil, List.append_nil]
  rw [exMerge, exBMR12, exBMR3, List.Sorted.insertionSort_eq exFinalSorted]
  rfl

lemma map_ne_nil_of_ne_nil {α β : Type} (f : α → β) {l : List α} (h : l ≠ []) :
    l.map f ≠ [] := by
  cases l with
  | nil => exact absurd rfl h
  | cons x xs => simp

/-- C5: on the three horizontal results with boxes `(0,0)-(10,10)`,
`(15,0)-(25,10)`, `(40,0)-(50,10)`, texts `"foo"`, `"bar"`, `"baz"` and
confidences `0.9`, `0.7`, `0.8`, line merging with the default options
(`xThs = 1`) merges the first two into a single result with text
`"foo bar"`, confidence `0.7` and box `(0,0)-(25,10)` while `"baz"` stays
separate; in general a merged result joins the nonempty member texts with
single spaces, takes the minimum member confidence, and takes the
axis-aligned union of the member boxes. -/
theorem line_merge_example :
    mergeOcrResultsByLine [exFoo, exBar, exBaz] DEFAULT_OCR_OPTIONS =
      [⟨⟨(0, 0), (25, 0), (25, 10), (0, 10)⟩, "foo bar", 0.7⟩, exBaz] ∧
    ∀ (items : List ResultMetrics), items ≠ [] →
      (buildMergedResult items).result.text =
        String.intercalate " "
          ((items.map (fun i => i.result.text)).filter (fun t => 0 < t.length)) ∧
      ((buildMergedResult items).result.confidence ∈
          items.map (fun i => i.result.confidence) ∧
        ∀ i ∈ items, (buildMergedResult items).result.confidence ≤ i.result.confidence) ∧
      ∃ u v U V : ℝ,
        (buildMergedResult items).result.box = ⟨(u, v), (U, v), (U, V), (u, V)⟩ ∧
        (∀ i ∈ items, u ≤ i.minX ∧ i.maxX ≤ U ∧ v ≤ i.minY ∧ i.maxY ≤ V) ∧
        u ∈ items.map (fun i => i.minX) ∧ U ∈ items.map (fun i => i.maxX) ∧
        v ∈ items.map (fun i => i.minY) ∧ V ∈ items.map (fun i => i.maxY) := by
  refine ⟨exMergeAll, ?_⟩
  intro items hne
  refine ⟨rfl, ⟨?_, ?_⟩, ?_⟩
  · exact (rMinList_spec _ (map_ne_nil_of_ne_nil _ hne)).1
  · intro i hi
    exact (rMinList_spec _ (map_ne_nil_of_ne_nil (fun i => i.result.confidence) hne)).2 _
      (List.mem_map_of_mem _ hi)
  · refine ⟨rMinList (items.map (fun i => i.minX)), rMinList (items.map (fun i => i.minY)),
      rMaxList (items.map (fun i => i.maxX)), rMaxList (items.map (fun i => i.maxY)),
      ?_, ?_, ?_, ?_, ?_, ?_⟩
    · rfl
    · intro i hi
      exact ⟨(rMinList_spec _ (map_ne_nil_of_ne_nil (fun i => i.minX) hne)).2 _
          (List.mem_map_of_mem _ hi),
        (rMaxList_spec _ (map_ne_nil_of_ne_nil (fun i => i.maxX) hne)).2 _
          (List.mem_map_of_mem _ hi),
        (rMinList_spec _ (map_ne_nil_of_ne_nil (fun i => i.minY) hne)).2 _
          (List.mem_map_of_mem _ hi),
        (rMaxList_spec _ (map_ne_nil_of_ne_nil (fun i => i.maxY) hne)).2 _
          (List.mem_map_of_mem _ hi)⟩
    · exact (rMinList_spec _ (map_ne_nil_of_ne_nil _ hne)).1
    · exact (rMaxList_spec _ (map_ne_nil_of_ne_nil _ hne)).1
    · exact (rMinList_spec _ (map_ne_nil_of_ne_nil _ hne)).1
    · exact (rMaxList_spec _ (map_ne_nil_of_ne_nil _ hne)).1

/-- The recognizer-model descriptor as seen by the orchestrator: the optional
`textInputName` marks a declared secondary text input
(`packages/core/src/types.ts`). -/
structure RecognizerModel where
  inputName : String
  outputName : String
  textInputName : Option String

/-- The feed map built for one crop inside `recognize`
(`packages/core/src/pipeline.ts`, lines 189-198): the preprocessed image
under `inputName` and, when the model declares a secondary text input, an
`int32` tensor of shape `[1,1]` holding the single value `0` under
`textInputName`. -/
def buildRecognizerFeeds (recognizer : RecognizerModel) (prep : Tensor) :
    List (String × Tensor) :=
  [(recognizer.inputName, prep)] ++
    (match recognizer.textInputName with
     | none => []
     | some name => [(name, ⟨[0], [1, 1], TensorType.int32⟩)])

/-- The ONNX-runtime element types used by the platform layer
(`ort.Tensor.Type` as used in `packages/web/src/index.ts`): the three core
types plus `int64`, which the core `TensorType` cannot express. -/
inductive OrtDataType
  | float32 | int32 | uint8 | int64
deriving DecidableEq

/-- `toOrtType` from `packages/web/src/index.ts`. -/
def toOrtType : TensorType → OrtDataType
  | TensorType.float32 => OrtDataType.float32
  | TensorType.int32 => OrtDataType.int32
  | TensorType.uint8 => OrtDataType.uint8

/-- A platform `ort.Tensor`: element type, data and dims. -/
structure OrtTensor where
  dtype : OrtDataType
  data : List ℚ
  dims : List ℕ

/-- `toOrtTensor` from `packages/web/src/index.ts`. -/
def toOrtTensor (tensor : Tensor) : OrtTensor :=
  ⟨toOrtType tensor.type, tensor.data, tensor.shape⟩

/-- The per-feed conversion of `RecognizerRunner.run`
(`packages/web/src/index.ts`, lines 394-407): the feed whose name equals
the declared (nonempty, since JS tests truthiness) text-input name is
rebuilt as an `int64` tensor whose data are the `BigInt` images of the
source entries (the sources are integer typed arrays, so the values carry
over unchanged); every other feed goes through `toOrtTensor`. -/
def recognizerRunnerFeed (textInputName : Option String) (name : String)
    (tensor : Tensor) : OrtTensor :=
  match textInputName with
  | some t =>
      if t ≠ "" ∧ name = t then ⟨OrtDataType.int64, tensor.data, tensor.shape⟩
      else toOrtTensor tensor
  | none => toOrtTensor tensor

def exRecC4 : RecognizerModel := ⟨"input", "output", some "text"⟩

def exPrepC4 : Tensor := ⟨[], [1, 1, 64, 100], TensorType.float32⟩

/-- Counterexample for C4: for a model declaring the secondary text input
`"text"`, the tensor the orchestrator feeds under that name is an `int32`
tensor (the core `TensorType` has no `int64` at all), so the tensor fed at
the cited lines is not an i64 tensor; the plain platform conversion of that
feed is `int32`, not `int64`. -/
theorem recognizer_text_feed_counterexample :
    ("text", (⟨[0], [1, 1], TensorType.int32⟩ : Tensor)) ∈
      buildRecognizerFeeds exRecC4 exPrepC4 ∧
    (⟨[0], [1, 1], TensorType.int32⟩ : Tensor).type ≠ TensorType.float32 ∧
    (toOrtTensor ⟨[0], [1, 1], TensorType.int32⟩).dtype ≠ OrtDataType.int64 :=
  ⟨List.Mem.tail _ (List.Mem.head _), by decide, by decide⟩

/-- C4 (amended): for every crop, when the recognizer model declares a
secondary text input, the orchestrator feeds under that name an `int32`
tensor of shape `[1,1]` containing the single value zero — the core tensor
type cannot express i64 — and it is the platform recognizer runner that
converts exactly this feed into an `int64` tensor of the same shape and
data before the ONNX session runs. -/
theorem recognizer_text_feed (recognizer : RecognizerModel) (name : String)
    (hname : recognizer.textInputName = some name) (hne : name ≠ "") (prep : Tensor) :
    ∃ t : Tensor,
      (name, t) ∈ buildRecognizerFeeds recognizer prep ∧
      t.data = [0] ∧ t.shape = [1, 1] ∧ t.type = TensorType.int32 ∧
      recognizerRunnerFeed recognizer.textInputName name t =
        ⟨OrtDataType.int64, [0], [1, 1]⟩ := by
  refine ⟨⟨[0], [1, 1], TensorType.int32⟩, ?_, rfl, rfl, rfl, ?_⟩
  · unfold buildRecognizerFeeds
    rw [hname]
    exact List.mem_append_right _ (List.mem_singleton.mpr rfl)
  · unfold recognizerRunnerFeed
    rw [hname]
    dsimp only
    rw [if_pos ⟨hne, rfl⟩]

/-- Witness for C4: the amended theorem instantiated at the concrete model
declaring the text input `"text"`. -/
theorem recognizer_text_feed_witness :
    (exRecC4.textInputName = some "text" ∧ "text" ≠ "") ∧
    ∃ t : Tensor,
      ("text", t) ∈ buildRecognizerFeeds exRecC4 exPrepC4 ∧
      t.data = [0] ∧ t.shape = [1, 1] ∧ t.type = TensorType.int32 ∧
      recognizerRunnerFeed exRecC4.textInputName "text" t =
        ⟨OrtDataType.int64, [0], [1, 1]⟩ :=
  ⟨⟨rfl, by decide⟩, recognizer_text_feed exRecC4 "text" rfl (by decide) exPrepC4⟩

/-- Witness for C5: the general merged-result properties instantiated at the
singleton list containing the metrics of the `"foo"` result. -/
theorem line_merge_example_witness :
    ([mFoo] : List ResultMetrics) ≠ [] ∧
    (buildMergedResult [mFoo]).result.text =
      String.intercalate " "
        ((([mFoo] : List ResultMetrics).map (fun i => i.result.text)).filter
          (fun t => 0 < t.length)) :=
  ⟨by simp, (line_merge_example.2 [mFoo] (by simp)).1⟩

end EasyOCR
